import Mathlib

/-!
# Built-in commands of sash: where, exit, echo, cd, dd, cp, mv, chattr

A shallow embedding of functions of `cmds.c`, `cmd_dd.c` and `cmd_chattr.c`.

* A C string is the list of its characters before the terminating NUL; the
  function `deref` reads the character a pointer designates and gives NUL at
  the end of the list.
* A command that makes system calls is a function of its arguments and of
  the answers the system calls give (a structure of answer functions); its
  result is the list of the actions it takes, in order.
* A loop whose number of iterations is not bounded by its input is run with
  fuel.
-/

namespace Sash

/-! ## Definitions -/

/-- The character a C string pointer designates: the head of the remaining
characters, or the terminating NUL when none remain. -/
def deref (cp : List Char) : Char := cp.headD (Char.ofNat 0)

/-- The macro isDecimal of sash.h. -/
def isDecimal (ch : Char) : Bool := decide ('0' ≤ ch) && decide (ch ≤ '9')

/-- Two's-complement reduction of an integer to a signed word of w bits:
what arithmetic on a long of w bits delivers. -/
def wrapLong (w : Nat) (x : Int) : Int := (x + 2 ^ (w - 1)) % 2 ^ w - 2 ^ (w - 1)

/-- The digit loop of getNum: value = value * 10 + *cp++ - '0' while the
current character is a decimal digit. -/
def getNumDigits (w : Nat) : List Char → Int → Int × List Char
  | [], value => (value, [])
  | c :: cs, value =>
    if isDecimal c then
      getNumDigits w cs
        (wrapLong w (wrapLong w (wrapLong w (value * 10) + (c.toNat : Int)) - ('0'.toNat : Int)))
    else (value, c :: cs)

/-- The function getNum of cmd_dd.c, with long a signed word of w bits. -/
def getNum (w : Nat) (cp : List Char) : Int :=
  if !isDecimal (deref cp) then -1
  else
    let r := getNumDigits w cp 0
    let value := r.1
    let cp := r.2
    let sw := deref cp
    let cp := cp.tail
    if sw = 'k' then
      let value := wrapLong w (value * 1024)
      if deref cp ≠ Char.ofNat 0 then -1 else value
    else if sw = 'b' then
      let value := wrapLong w (value * 512)
      if deref cp ≠ Char.ofNat 0 then -1 else value
    else if sw = 'w' then
      let value := wrapLong w (value * 2)
      if deref cp ≠ Char.ofNat 0 then -1 else value
    else if sw = Char.ofNat 0 then value
    else -1

/-- Decimal value of a digit string, most significant digit first, starting
from the accumulated value v. -/
def decimalFrom (v : Nat) (ds : List Char) : Nat :=
  ds.foldl (fun acc c => acc * 10 + (c.toNat - '0'.toNat)) v

/-- Decimal value of a digit string. -/
def decimalValue (ds : List Char) : Nat := decimalFrom 0 ds

/-- The multiplier each accepted suffix stands for. -/
def suffixMultiplier (suf : List Char) : Nat :=
  if suf = ['k'] then 1024 else if suf = ['b'] then 512 else if suf = ['w'] then 2 else 1

/-- The integer x is representable as a signed word of w bits. -/
def fitsLong (w : Nat) (x : Int) : Prop := -(2 ^ (w - 1)) ≤ x ∧ x < 2 ^ (w - 1)

/-- The strings the number syntax accepts: one or more decimal digits,
optionally followed by exactly one of k, b, w. -/
def wellFormedNum (s : List Char) : Prop :=
  ∃ ds suf, s = ds ++ suf ∧ ds ≠ [] ∧ (∀ c ∈ ds, isDecimal c = true) ∧
    suf ∈ [[], ['k'], ['b'], ['w']]

/-- What a built-in command did: it returned to its caller after the listed
events, or it read its argument vector at or beyond index argc (where the
vector holds no argument) after the listed events. -/
inductive Outcome (ε : Type) where
  | returned (trace : List ε)
  | pastEnd (trace : List ε)
  deriving DecidableEq

/-- The observable actions of do_chattr. -/
inductive ChattrEvent where
  | stderr (msg : List Char)
  | openFile (name : List Char)
  | perror (name : List Char)
  | getFlags (name : List Char)
  | setFlags (name : List Char) (newFlags : Nat)
  | close (name : List Char)
  deriving DecidableEq

/-- The answers of the system calls do_chattr makes for the file handled in
iteration i of its file loop: whether open succeeds, the flag word
EXT2_IOC_GETFLAGS stores (none when the ioctl fails), and whether
EXT2_IOC_SETFLAGS succeeds. -/
structure ChattrEnv where
  openOk : Nat → List Char → Bool
  getFlags : Nat → List Char → Option Nat
  setOk : Nat → List Char → Nat → Bool

/-- The inner loop of do_chattr over the flag characters of one option:
the word flagPointer designates after the loop, or the unknown character. -/
def chattrFlagChars (imm app : Nat) : List Char → Nat → Except Char Nat
  | [], flags => .ok flags
  | c :: cs, flags =>
    if c = Char.ofNat 0 then .ok flags
    else if c = 'i' then chattrFlagChars imm app cs (flags ||| imm)
    else if c = 'a' then chattrFlagChars imm app cs (flags ||| app)
    else .error c

/-- Where the option parsing of do_chattr ends. -/
inductive ChattrParse where
  | unknownFlag (c : Char)
  | pastEnd
  | done (onFlags offFlags : Nat) (argc : Int) (argv : List (List Char))
  deriving DecidableEq

/-- The option loop of do_chattr: while the current argument begins with
'-' or '+', fold its flag characters into onFlags or offFlags. The loop
tests the current argument without looking at argc. -/
def chattrOptions (imm app : Nat) :
    List (List Char) → Int → Nat → Nat → ChattrParse
  | [], _, _, _ => .pastEnd
  | arg :: rest, argc, onFlags, offFlags =>
    if deref arg = '-' ∨ deref arg = '+' then
      if deref arg = '+' then
        match chattrFlagChars imm app arg.tail onFlags with
        | .error c => .unknownFlag c
        | .ok f => chattrOptions imm app rest (argc - 1) f offFlags
      else
        match chattrFlagChars imm app arg.tail offFlags with
        | .error c => .unknownFlag c
        | .ok f => chattrOptions imm app rest (argc - 1) onFlags f
    else .done onFlags offFlags argc (arg :: rest)

/-- The complement of a 32-bit int. -/
def not32 (x : Nat) : Nat := x ^^^ (2 ^ 32 - 1)

/-- The new flag word do_chattr computes from the old one:
newFlags = oldFlags; newFlags |= onFlags; newFlags &= ~offFlags. -/
def chattrNewFlags (oldFlags onFlags offFlags : Nat) : Nat :=
  (oldFlags ||| onFlags) &&& not32 offFlags

/-- The file loop of do_chattr; i counts the iterations already made. -/
def chattrFiles (env : ChattrEnv) (onFlags offFlags : Nat) :
    List (List Char) → Int → Nat → List ChattrEvent → Outcome ChattrEvent
  | [], argc, _, tr => if argc > 0 then .pastEnd tr else .returned tr
  | fileName :: rest, argc, i, tr =>
    if argc > 0 then
      let tr := tr ++ [.openFile fileName]
      if !env.openOk i fileName then
        chattrFiles env onFlags offFlags rest (argc - 1) (i + 1) (tr ++ [.perror fileName])
      else
        let tr := tr ++ [.getFlags fileName]
        match env.getFlags i fileName with
        | none =>
          chattrFiles env onFlags offFlags rest (argc - 1) (i + 1)
            (tr ++ [.perror fileName, .close fileName])
        | some oldFlags =>
          let newFlags := chattrNewFlags oldFlags onFlags offFlags
          if newFlags = oldFlags then
            chattrFiles env onFlags offFlags rest (argc - 1) (i + 1) (tr ++ [.close fileName])
          else
            let tr := tr ++ [.setFlags fileName newFlags]
            if !env.setOk i fileName newFlags then
              chattrFiles env onFlags offFlags rest (argc - 1) (i + 1)
                (tr ++ [.perror fileName, .close fileName])
            else
              chattrFiles env onFlags offFlags rest (argc - 1) (i + 1) (tr ++ [.close fileName])
    else .returned tr

/-- The events of an outcome. -/
def Outcome.trace {ε : Type} : Outcome ε → List ε
  | .returned tr => tr
  | .pastEnd tr => tr

/-- Where do_chattr stands when its file loop is about to start: it has
already finished, or the options were accepted. -/
inductive ChattrArgs where
  | rejected (o : Outcome ChattrEvent)
  | accepted (onFlags offFlags : Nat) (argc : Int) (argv : List (List Char))
  deriving DecidableEq

/-- The part of do_chattr before its file loop: argc--, argv++, the option
loop and the three sanity checks. The constants EXT2_IMMUTABLE_FL and
EXT2_APPEND_FL come from a system header and are the parameters imm and
app. -/
def chattrArgs (imm app : Nat) (argc : Int) (argv : List (List Char)) : ChattrArgs :=
  match chattrOptions imm app argv.tail (argc - 1) 0 0 with
  | .unknownFlag c =>
    .rejected (.returned [.stderr ("Unknown flag '".toList ++ [c] ++ "'\n".toList)])
  | .pastEnd => .rejected (.pastEnd [])
  | .done onFlags offFlags argc argv =>
    if onFlags = 0 ∧ offFlags = 0 then
      .rejected (.returned [.stderr "No attributes specified\n".toList])
    else if onFlags &&& offFlags ≠ 0 then
      .rejected (.returned [.stderr "Inconsistent attributes specified\n".toList])
    else if argc ≤ 0 then
      .rejected (.returned [.stderr "No files specified for setting attributes\n".toList])
    else .accepted onFlags offFlags argc argv

/-- The function do_chattr of cmd_chattr.c. -/
def do_chattr (env : ChattrEnv) (imm app : Nat) (argc : Int) (argv : List (List Char)) :
    Outcome ChattrEvent :=
  match chattrArgs imm app argc argv with
  | .rejected o => o
  | .accepted onFlags offFlags argc argv => chattrFiles env onFlags offFlags argv argc 0 []

/-- An argument the option loop of do_chattr takes for an option. -/
def isOptionArg (a : List Char) : Bool := decide (deref a = '-' ∨ deref a = '+')

/-- The option arguments of a chattr command line: the arguments after the
command name up to the first one that begins with neither '-' nor '+'. -/
def chattrOptionArgs (argv : List (List Char)) : List (List Char) :=
  argv.tail.takeWhile isOptionArg

/-- The flag letter fl is named after the given sign in some option. -/
def namedFlag (sign fl : Char) (opts : List (List Char)) : Prop :=
  ∃ o ∈ opts, deref o = sign ∧ fl ∈ o.tail

instance namedFlagDecidable (sign fl : Char) (opts : List (List Char)) :
    Decidable (namedFlag sign fl opts) := by
  unfold namedFlag
  infer_instance

/-- The flag words a set of named flags stands for. -/
def flagSubsets (imm app : Nat) : List Nat := [0, imm, app, imm ||| app]

/-- What do_chattr owes for the file name when it is file number i of the
command line: open it; when that succeeds read its flag word; when that
succeeds too and (oldFlags | onFlags) & ~offFlags differs from oldFlags, set
that word as the new flag word of the file; close the file; and perror for
the call that fails. -/
def chattrVisit (env : ChattrEnv) (onFlags offFlags : Nat) (i : Nat) (name : List Char) :
    List ChattrEvent :=
  if env.openOk i name then
    match env.getFlags i name with
    | none => [.openFile name, .getFlags name, .perror name, .close name]
    | some oldFlags =>
      if (oldFlags ||| onFlags) &&& not32 offFlags = oldFlags then
        [.openFile name, .getFlags name, .close name]
      else if env.setOk i name ((oldFlags ||| onFlags) &&& not32 offFlags) then
        [.openFile name, .getFlags name,
          .setFlags name ((oldFlags ||| onFlags) &&& not32 offFlags), .close name]
      else
        [.openFile name, .getFlags name,
          .setFlags name ((oldFlags ||| onFlags) &&& not32 offFlags), .perror name, .close name]
  else [.openFile name, .perror name]

/-- The visits of the files names in listed order, the first of them being
file number i. -/
def chattrVisits (env : ChattrEnv) (onFlags offFlags : Nat) :
    Nat → List (List Char) → List ChattrEvent
  | _, [] => []
  | i, f :: fs => chattrVisit env onFlags offFlags i f ++ chattrVisits env onFlags offFlags (i + 1) fs

/-- An example of surroundings for do_chattr: every file opens, has the
flag word 0x80020, and accepts a new flag word. -/
def chattrEnvExample : ChattrEnv where
  openOk := fun _ _ => true
  getFlags := fun _ _ => some 0x80020
  setOk := fun _ _ _ => true

/-- The observable actions of do_where. -/
inductive WhereEvent where
  | stderr (msg : List Char)
  | access (fullPath : List Char)
  | stdout (text : List Char)
  deriving DecidableEq

/-- What do_where did: it returned after the listed events, it read argv
beyond the arguments it was given, or it passed the null pointer of an
unset PATH to strlen. -/
inductive WhereOutcome where
  | returned (trace : List WhereEvent)
  | pastEnd
  | nullPath
  deriving DecidableEq

/-- The surroundings of do_where: the answer of the i-th call of
access(fullPath, X_OK) (none for success, the errno value for a failure),
the text strerror gives for an errno value, the errno value ENOENT, and
whether getChunk and chunkstrdup deliver memory. -/
structure WhereEnv where
  access : Nat → List Char → Option Nat
  strerror : Nat → List Char
  enoent : Nat
  allocOk : Bool

/-- The statements endPath = strchr(path, ':'); if (endPath) *endPath++ = 0:
the directory name now terminated at path, and endPath (none for NULL). -/
def splitAtColon : List Char → List Char × Option (List Char)
  | [] => ([], none)
  | c :: cs =>
    if c = ':' then ([], some cs)
    else ((c :: (splitAtColon cs).1), (splitAtColon cs).2)

/-- The loop for (; path; path = endPath) of do_where, run for at most fuel
iterations; i counts the calls of access made so far. The result is none
when the fuel runs out before path is NULL. -/
def whereLoop (env : WhereEnv) (program : List Char) :
    Nat → Option (List Char) → Nat → Bool → List WhereEvent → Option (Bool × List WhereEvent)
  | _, none, _, found, tr => some (found, tr)
  | 0, some _, _, _, _ => none
  | fuel + 1, some path, i, found, tr =>
    let endPath := (splitAtColon path).2
    -- dirName = path; if (dirName == 0) dirName = ".": the test is on the
    -- pointer, which is not null inside the loop
    let dirPtr : Option (List Char) := some (splitAtColon path).1
    let dirName : List Char :=
      match dirPtr with
      | none => ".".toList
      | some d => d
    let fullPath := dirName ++ "/".toList ++ program
    let tr := tr ++ [.access fullPath]
    match env.access i fullPath with
    | some errno =>
      if errno ≠ env.enoent then
        whereLoop env program fuel endPath (i + 1) found
          (tr ++ [.stdout (fullPath ++ ": ".toList ++ env.strerror errno ++ "\n".toList)])
      else whereLoop env program fuel endPath (i + 1) found tr
    | none =>
      whereLoop env program fuel endPath (i + 1) true (tr ++ [.stdout (fullPath ++ "\n".toList)])

/-- The function do_where of cmds.c; pathEnv is the value of getenv("PATH"). -/
def do_where (env : WhereEnv) (pathEnv : Option (List Char)) (argv : List (List Char)) :
    Option WhereOutcome :=
  match argv with
  | _ :: program :: _ =>
    if '/' ∈ program then
      some (.returned [.stderr "Program name cannot include a path\n".toList])
    else
      match pathEnv with
      | none => some .nullPath
      | some path =>
        if !env.allocOk then some (.returned [.stderr "Memory allocation failed\n".toList])
        else
          match whereLoop env program (path.length + 1) (some path) 0 false [] with
          | none => none
          | some (found, tr) =>
            if !found then
              some (.returned (tr ++ [.stdout ("Program \"".toList ++ program
                ++ "\" not found in PATH\n".toList)]))
            else some (.returned tr)
  | _ => some .pastEnd

/-- The colon-separated components of a PATH value, in listed order. -/
def pathComponents : List Char → List (List Char)
  | [] => [[]]
  | c :: cs =>
    if c = ':' then [] :: pathComponents cs
    else
      match pathComponents cs with
      | [] => [[c]]
      | d :: ds => (c :: d) :: ds

/-- What the search owes for the component dir when it is the i-th one
visited: the access call on dir/program, then the line dir/program when
access succeeds, the line with the error text when it fails with an error
other than ENOENT, and nothing when it fails with ENOENT. -/
def whereVisit (env : WhereEnv) (program : List Char) (i : Nat) (dir : List Char) :
    List WhereEvent :=
  .access (dir ++ "/".toList ++ program) ::
    (match env.access i (dir ++ "/".toList ++ program) with
     | none => [.stdout (dir ++ "/".toList ++ program ++ "\n".toList)]
     | some errno =>
       if errno = env.enoent then []
       else [.stdout (dir ++ "/".toList ++ program ++ ": ".toList ++ env.strerror errno
              ++ "\n".toList)])

/-- The visits of the components dirs in listed order, the first of them
being visit number i. -/
def whereVisits (env : WhereEnv) (program : List Char) : Nat → List (List Char) → List WhereEvent
  | _, [] => []
  | i, d :: ds => whereVisit env program i d ++ whereVisits env program (i + 1) ds

/-- Whether access succeeds for some component of dirs. -/
def whereSucceeds (env : WhereEnv) (program : List Char) : Nat → List (List Char) → Bool
  | _, [] => false
  | i, d :: ds =>
    (env.access i (d ++ "/".toList ++ program)).isNone || whereSucceeds env program (i + 1) ds

/-- An example of surroundings for do_where: only /bin/ls is executable,
/sbin/ls fails with errno 13, every other path fails with ENOENT = 2. -/
def whereEnvExample : WhereEnv where
  access := fun _ p =>
    if p = "/bin/ls".toList then none
    else if p = "/sbin/ls".toList then some 13 else some 2
  strerror := fun _ => "Permission denied".toList
  enoent := 2
  allocOk := true

/-- What do_exit did: it returned to its caller after writing the given
text to standard error, or it ended the process with the given status. -/
inductive ExitOutcome where
  | returned (stderrText : List Char)
  | exited (status : Int)
  deriving DecidableEq

/-- The function do_exit of cmds.c; pid is the value of getpid(). -/
def do_exit (pid : Int) (_argc : Int) (_argv : List (List Char)) : ExitOutcome :=
  if pid = 1 then .returned "You are the INIT process!\n".toList
  else .exited 0

/-- The loop of do_echo: while (argc-- > 1), a space unless first, then
the next argument. The head of the list is the argument argv points at;
the result is none when the loop steps beyond the arguments given. -/
def echoLoop : List (List Char) → Int → Bool → List Char → Option (List Char)
  | [], argc, _, out => if argc > 1 then none else some out
  | [_], argc, _, out => if argc > 1 then none else some out
  | _ :: arg :: rest, argc, first, out =>
    if argc > 1 then
      echoLoop (arg :: rest) (argc - 1) false
        ((if !first then out ++ [' '] else out) ++ arg)
    else some out

/-- The function do_echo of cmds.c: the text written to standard output,
or none when it read beyond the arguments given. -/
def do_echo (argc : Int) (argv : List (List Char)) : Option (List Char) :=
  match echoLoop argv argc true [] with
  | none => none
  | some out => some (out ++ ['\n'])

/-- The observable actions of do_cd. -/
inductive CdEvent where
  | getenv (name : List Char)
  | stderr (msg : List Char)
  | chdir (path : List Char)
  | perror (path : List Char)
  deriving DecidableEq

/-- The surroundings of do_cd: the environment variables and whether
chdir to a path succeeds. -/
structure CdEnv where
  getenv : List Char → Option (List Char)
  chdirOk : List Char → Bool

/-- The function do_cd of cmds.c: the actions it takes, or none when it
read argv[1] beyond the arguments given. -/
def do_cd (env : CdEnv) (argc : Int) (argv : List (List Char)) : Option (List CdEvent) :=
  if argc > 1 then
    match argv[1]? with
    | none => none
    | some path =>
      some (.chdir path :: (if !env.chdirOk path then [.perror path] else []))
  else
    match env.getenv "HOME".toList with
    | none => some [.getenv "HOME".toList, .stderr "No HOME environment variable\n".toList]
    | some path =>
      some (.getenv "HOME".toList :: .chdir path ::
        (if !env.chdirOk path then [.perror path] else []))

/-- An example of surroundings for do_cd: HOME is /root and every chdir
succeeds. -/
def cdEnvExample : CdEnv where
  getenv := fun name => if name = "HOME".toList then some "/root".toList else none
  chdirOk := fun _ => true

/-- The observable actions of the copy loop of do_dd and of its cleanup. -/
inductive DdEvent where
  | read (result : Int)
  | poll (flag : Bool)
  | write (count result : Int)
  | stderr (msg : List Char)
  | perrorIn
  | perrorOut
  | closeIn
  | closeOut
  | recordsIn (full partialCount : Int)
  | recordsOut (full partialCount : Int)
  deriving DecidableEq

/-- The surroundings of the copy loop of do_dd: the result of its k-th call
of read, the value of intFlag at its k-th test, the result of its k-th call
of write for the byte count asked, and whether close(outFd) succeeds. -/
structure DdEnv where
  read : Nat → Int
  intFlag : Nat → Bool
  write : Nat → Int → Int
  closeOutOk : Bool

/-- The variables of do_dd the copy loop works on, and the number of read
calls, flag tests and write calls made so far. -/
structure DdState where
  inCc : Int
  inFull : Int
  inPartial : Int
  outFull : Int
  outPartial : Int
  reads : Nat
  polls : Nat
  writes : Nat
  deriving DecidableEq

/-- How the write loop of do_dd ended. -/
inductive DdStatus where
  | done
  | failed
  | outOfFuel
  deriving DecidableEq

/-- The statements if (outCc < blockSize) outPartial++; else outFull++. -/
def DdState.countOut (st : DdState) (blockSize outCc : Int) : DdState :=
  if outCc < blockSize then { st with outPartial := st.outPartial + 1 }
  else { st with outFull := st.outFull + 1 }

/-- The statements if (inCc < blockSize) inPartial++; else inFull++. -/
def DdState.countIn (st : DdState) (blockSize : Int) : DdState :=
  if st.inCc < blockSize then { st with inPartial := st.inPartial + 1 }
  else { st with inFull := st.inFull + 1 }

/-- The loop while (inCc > 0) of do_dd, which writes the block just read,
run for at most fuel iterations. -/
def ddWriteLoop (env : DdEnv) (blockSize : Int) :
    Nat → DdState → List DdEvent × DdState × DdStatus
  | 0, st => if st.inCc > 0 then ([], st, .outOfFuel) else ([], st, .done)
  | fuel + 1, st =>
    if st.inCc > 0 then
      let outCc := env.write st.writes st.inCc
      let st1 := { st with writes := st.writes + 1 }
      if outCc < 0 then ([.write st.inCc outCc, .perrorOut], st1, .failed)
      else
        let r := ddWriteLoop env blockSize fuel
          { (st1.countOut blockSize outCc) with inCc := st.inCc - outCc }
        (.write st.inCc outCc :: r.1, r.2)
    else ([], st, .done)

/-- The code of do_dd from the label cleanup on: close both files, report
a failing close of the output, print the two record counts. -/
def ddCleanup (env : DdEnv) (st : DdState) : List DdEvent :=
  [.closeIn, .closeOut] ++ (if !env.closeOutOk then [.perrorOut] else []) ++
    [.recordsIn st.inFull st.inPartial, .recordsOut st.outFull st.outPartial]

/-- The state after a successful read in the copy loop of do_dd, up to and
with the test of intFlag: inCc is set, the block is counted, and the read
and the flag test are counted. -/
def DdState.afterRead (st : DdState) (blockSize inCc : Int) : DdState :=
  { ({ st with inCc := inCc, reads := st.reads + 1 }.countIn blockSize) with
    polls := st.polls + 1 }

/-- The code of do_dd after its copy loop: if (inCc < 0) perror(inFile),
then the code from the label cleanup on. -/
def ddAfterLoop (env : DdEnv) (st : DdState) : List DdEvent :=
  (if st.inCc < 0 then [.perrorIn] else []) ++ ddCleanup env st

/-- The copy loop of do_dd with the code that follows it, run for at most
fuel iterations of each loop: the events, and whether do_dd got to its end
(false when the fuel ran out first, the events then being the first ones of
the run). -/
def ddCopyLoop (env : DdEnv) (count blockSize : Int) : Nat → DdState → List DdEvent × Bool
  | 0, _ => ([], false)
  | fuel + 1, st =>
    if count < 0 ∨ st.inFull + st.inPartial < count then
      let inCc := env.read st.reads
      if inCc > 0 then
        let st1 := st.afterRead blockSize inCc
        if env.intFlag st.polls then
          (.read inCc :: .poll true :: .stderr "Interrupted\n".toList :: ddCleanup env st1, true)
        else
          let w := ddWriteLoop env blockSize fuel st1
          match w.2.2 with
          | .failed => (.read inCc :: .poll false :: (w.1 ++ ddCleanup env w.2.1), true)
          | .outOfFuel => (.read inCc :: .poll false :: w.1, false)
          | .done =>
            let r := ddCopyLoop env count blockSize fuel w.2.1
            (.read inCc :: .poll false :: (w.1 ++ r.1), r.2)
      else
        (.read inCc :: ddAfterLoop env { st with inCc := inCc, reads := st.reads + 1 }, true)
    else (ddAfterLoop env st, true)

/-- The part of do_dd from inFull = 0 (line 200) and inCc = 0 (line 263)
to its end, the files being open and positioned: count and blockSize are
the values the arguments gave. -/
def do_dd_copy (env : DdEnv) (count blockSize : Int) (fuel : Nat) : List DdEvent × Bool :=
  ddCopyLoop env count blockSize fuel ⟨0, 0, 0, 0, 0, 0, 0, 0⟩

/-- An example of surroundings for do_dd: three blocks of 512 bytes can be
read, every write is complete, and the interrupt flag is found set at the
second test. -/
def ddEnvExample : DdEnv where
  read := fun k => if k < 3 then 512 else 0
  intFlag := fun k => decide (k = 1)
  write := fun _ n => n
  closeOutOk := true

/-- An event that reads or writes a file or tests the interrupt flag. -/
def DdEvent.isTransfer : DdEvent → Bool
  | .read _ => true
  | .poll _ => true
  | .write _ _ => true
  | _ => false

/-- The event e may stand right before a write: it is the test of the
interrupt flag that found it clear, or an earlier write of the same block. -/
def DdEvent.allowsWrite (e : DdEvent) : Prop :=
  e = .poll false ∨ ∃ c r, e = .write c r

/-- The outcome o with the events evs put in front of its own. -/
def Outcome.after {ε : Type} (evs : List ε) : Outcome ε → Outcome ε
  | .returned tr => .returned (evs ++ tr)
  | .pastEnd tr => .pastEnd (evs ++ tr)

/-- The observable actions of do_cp and do_mv. -/
inductive MoveEvent where
  | isDirectory (name : List Char)
  | stderr (msg : List Char)
  | poll (flag : Bool)
  | access (name : List Char)
  | perror (name : List Char)
  | rename (srcName destName : List Char)
  | copyFile (srcName destName : List Char) (setModes : Bool)
  | unlink (name : List Char)
  deriving DecidableEq

/-- The surroundings of do_cp and do_mv: the functions isDirectory,
buildName and copyFile of utils.c, and for the source handled in iteration
k the answers of access, rename (none for success, the errno value for a
failure) and unlink, with the errno value EXDEV. -/
structure MoveEnv where
  isDirectory : List Char → Bool
  buildName : List Char → List Char → List Char
  copyFile : Nat → List Char → List Char → Bool → Bool
  accessOk : Nat → List Char → Bool
  rename : Nat → List Char → List Char → Option Nat
  exdev : Nat
  unlinkOk : Nat → List Char → Bool

/-- The loop while (!intFlag && (argc-- > 2)) { srcName = *(++argv); ... }
that do_cp and do_mv share, body being what the loop does with srcName in
iteration k. intFlag k is the value of the interrupt flag when the loop
condition is evaluated for the k-th time (counting from 0); the head of the
list is the argument argv points at. -/
def sourceLoop (intFlag : Nat → Bool) (body : Nat → List Char → List MoveEvent) :
    List (List Char) → Int → Nat → Outcome MoveEvent
  | [], argc, k =>
    if intFlag k then .returned [.poll true]
    else if argc > 2 then .pastEnd [.poll false]
    else .returned [.poll false]
  | [_], argc, k =>
    if intFlag k then .returned [.poll true]
    else if argc > 2 then .pastEnd [.poll false]
    else .returned [.poll false]
  | _ :: srcName :: rest, argc, k =>
    if intFlag k then .returned [.poll true]
    else if argc > 2 then
      (sourceLoop intFlag body (srcName :: rest) (argc - 1) (k + 1)).after
        (.poll false :: body k srcName)
    else .returned [.poll false]

/-- The body of the loop of do_cp. -/
def cpBody (env : MoveEnv) (lastArg : List Char) (dirFlag : Bool) (_k : Nat)
    (srcName : List Char) : List MoveEvent :=
  let destName := if dirFlag then env.buildName lastArg srcName else lastArg
  [.copyFile srcName destName false]

/-- The body of the loop of do_mv. -/
def mvBody (env : MoveEnv) (lastArg : List Char) (dirFlag : Bool) (k : Nat)
    (srcName : List Char) : List MoveEvent :=
  if !env.accessOk k srcName then [.access srcName, .perror srcName]
  else
    let destName := if dirFlag then env.buildName lastArg srcName else lastArg
    match env.rename k srcName destName with
    | none => [.access srcName, .rename srcName destName]
    | some errno =>
      if errno ≠ env.exdev then [.access srcName, .rename srcName destName, .perror destName]
      else if !env.copyFile k srcName destName true then
        [.access srcName, .rename srcName destName, .copyFile srcName destName true]
      else if !env.unlinkOk k srcName then
        [.access srcName, .rename srcName destName, .copyFile srcName destName true,
          .unlink srcName, .perror srcName]
      else
        [.access srcName, .rename srcName destName, .copyFile srcName destName true,
          .unlink srcName]

/-- The element argv[argc - 1], none when the index is outside the
arguments given. -/
def lastArgOf (argc : Int) (argv : List (List Char)) : Option (List Char) :=
  if argc - 1 < 0 then none else argv[(argc - 1).toNat]?

/-- The function do_cp of cmds.c. -/
def do_cp (env : MoveEnv) (intFlag : Nat → Bool) (argc : Int) (argv : List (List Char)) :
    Outcome MoveEvent :=
  match lastArgOf argc argv with
  | none => .pastEnd []
  | some lastArg =>
    let dirFlag := env.isDirectory lastArg
    if argc > 3 ∧ !dirFlag then
      .returned [.isDirectory lastArg, .stderr (lastArg ++ ": not a directory\n".toList)]
    else
      (sourceLoop intFlag (cpBody env lastArg dirFlag) argv argc 0).after [.isDirectory lastArg]

/-- The function do_mv of cmds.c. -/
def do_mv (env : MoveEnv) (intFlag : Nat → Bool) (argc : Int) (argv : List (List Char)) :
    Outcome MoveEvent :=
  match lastArgOf argc argv with
  | none => .pastEnd []
  | some lastArg =>
    let dirFlag := env.isDirectory lastArg
    if argc > 3 ∧ !dirFlag then
      .returned [.isDirectory lastArg, .stderr (lastArg ++ ": not a directory\n".toList)]
    else
      (sourceLoop intFlag (mvBody env lastArg dirFlag) argv argc 0).after [.isDirectory lastArg]

/-- The source names of a cp or mv command line: the arguments between
the command name and the last argument. -/
def sourceNames (argv : List (List Char)) : List (List Char) := argv.tail.dropLast

/-- What the loop of do_cp and do_mv owes for the source names srcs, the
first of them being source number k: before each source name the interrupt
flag is tested; when it is found set nothing more is done; when it is found
clear the source is handled (body) and the run goes on to the next source;
after the last source the flag is tested once more. -/
def guardedRun (intFlag : Nat → Bool) (body : Nat → List Char → List MoveEvent) :
    Nat → List (List Char) → List MoveEvent
  | k, [] => [.poll (intFlag k)]
  | k, s :: ss =>
    if intFlag k then [.poll true]
    else .poll false :: (body k s ++ guardedRun intFlag body (k + 1) ss)

/-- An example of surroundings for do_cp and do_mv: d is a directory,
buildName joins with a slash, rename fails with EXDEV = 18, and copyFile,
access and unlink succeed. -/
def moveEnvExample : MoveEnv where
  isDirectory := fun n => decide (n = ['d'])
  buildName := fun d f => d ++ '/' :: f
  copyFile := fun _ _ _ _ => true
  accessOk := fun _ _ => true
  rename := fun _ _ _ => some 18
  exdev := 18
  unlinkOk := fun _ _ => true

/-! ## Theorems -/

theorem wrapLong_modEq (w : Nat) (x : Int) : wrapLong w x ≡ x [ZMOD 2 ^ w] := by
  unfold wrapLong
  have h : (x + 2 ^ (w - 1)) % 2 ^ w ≡ x + 2 ^ (w - 1) [ZMOD 2 ^ w] := Int.mod_modEq _ _
  simpa using h.sub_right (2 ^ (w - 1))

theorem wrapLong_congr (w : Nat) {x y : Int} (h : x ≡ y [ZMOD 2 ^ w]) :
    wrapLong w x = wrapLong w y := by
  unfold wrapLong
  have h2 : (x + 2 ^ (w - 1)) % 2 ^ w = (y + 2 ^ (w - 1)) % 2 ^ w := h.add_right _
  rw [h2]

theorem wrapLong_of_fits (w : Nat) (hw : 0 < w) (x : Int) (h : fitsLong w x) :
    wrapLong w x = x := by
  obtain ⟨h1, h2⟩ := h
  unfold wrapLong
  have hp : (2 : Int) ^ w = 2 * 2 ^ (w - 1) := by
    obtain ⟨k, rfl⟩ : ∃ k, w = k + 1 := ⟨w - 1, by omega⟩
    simp [pow_succ, mul_comm]
  rw [Int.emod_eq_of_lt (by linarith) (by linarith)]
  ring

theorem wrapLong_digit_step (w : Nat) (vi : Int) (vn : Nat) (c : Char)
    (hv : vi = wrapLong w vn) (hc : '0'.toNat ≤ c.toNat) :
    wrapLong w (wrapLong w (wrapLong w (vi * 10) + (c.toNat : Int)) - ('0'.toNat : Int))
      = wrapLong w ((vn * 10 + (c.toNat - '0'.toNat) : Nat) : Int) := by
  apply wrapLong_congr
  have h1 : vi ≡ (vn : Int) [ZMOD 2 ^ w] := hv ▸ wrapLong_modEq w vn
  have h2 : wrapLong w (vi * 10) ≡ (vn : Int) * 10 [ZMOD 2 ^ w] :=
    (wrapLong_modEq w _).trans (h1.mul_right 10)
  have h3 : wrapLong w (wrapLong w (vi * 10) + (c.toNat : Int)) ≡ (vn : Int) * 10 + c.toNat [ZMOD 2 ^ w] :=
    (wrapLong_modEq w _).trans (h2.add_right _)
  have h4 := h3.sub_right ('0'.toNat : Int)
  have e : (((vn * 10 + (c.toNat - '0'.toNat) : Nat)) : Int) = (vn : Int) * 10 + c.toNat - ('0'.toNat : Int) := by
    have h0 : '0'.toNat = 48 := rfl
    rw [h0] at hc ⊢
    omega
  rw [e]
  exact h4

theorem isDecimal_ge (c : Char) (h : isDecimal c = true) : '0'.toNat ≤ c.toNat := by
  unfold isDecimal at h
  simp only [Bool.and_eq_true, decide_eq_true_eq] at h
  exact h.1

theorem getNumDigits_snd (w : Nat) (s : List Char) (v : Int) :
    (getNumDigits w s v).2 = s.dropWhile isDecimal := by
  induction s generalizing v with
  | nil => simp [getNumDigits]
  | cons c cs ih =>
    unfold getNumDigits
    by_cases hc : isDecimal c = true
    · simp [hc, ih]
    · simp [hc]

theorem getNumDigits_fst (w : Nat) (s : List Char) (vi : Int) (vn : Nat)
    (hv : vi = wrapLong w vn) :
    (getNumDigits w s vi).1 = wrapLong w (decimalFrom vn (s.takeWhile isDecimal)) := by
  induction s generalizing vi vn with
  | nil => simp [getNumDigits, decimalFrom, hv]
  | cons c cs ih =>
    unfold getNumDigits
    by_cases hc : isDecimal c = true
    · simp only [hc, if_true, List.takeWhile_cons]
      rw [ih _ (vn * 10 + (c.toNat - '0'.toNat)) (wrapLong_digit_step w vi vn c hv (isDecimal_ge c hc))]
      simp [decimalFrom]
    · simp [hc, decimalFrom, hv]

theorem wrapLong_zero (w : Nat) (hw : 0 < w) : wrapLong w 0 = 0 := by
  apply wrapLong_of_fits w hw
  constructor
  · simp
  · positivity

theorem getNumDigits_eq (w : Nat) (hw : 0 < w) (s : List Char) :
    getNumDigits w s 0
      = (wrapLong w (decimalValue (s.takeWhile isDecimal)), s.dropWhile isDecimal) := by
  apply Prod.ext
  · exact getNumDigits_fst w s 0 0 (by simpa using (wrapLong_zero w hw).symm)
  · exact getNumDigits_snd w s 0

theorem wrapLong_mul_congr (w : Nat) (x : Int) (m : Int) :
    wrapLong w (wrapLong w x * m) = wrapLong w (x * m) :=
  wrapLong_congr w ((wrapLong_modEq w x).mul_right m)

theorem fitsLong_of_mul (w : Nat) (v m : Nat) (hm : 0 < m)
    (h : fitsLong w ((v : Int) * (m : Int))) : fitsLong w (v : Int) := by
  obtain ⟨h1, h2⟩ := h
  have hp : (0 : Int) < 2 ^ (w - 1) := by positivity
  constructor
  · have : (0 : Int) ≤ v := Int.ofNat_nonneg v
    linarith
  · have hv : (v : Int) ≤ (v : Int) * (m : Int) := by
      have hm1 : (1 : Int) ≤ m := by exact_mod_cast hm
      have hv0 : (0 : Int) ≤ v := Int.ofNat_nonneg v
      nlinarith
    linarith

/-- Claim C9: getNum reads a number with a possible multiplier. For a string
of one or more decimal digits optionally followed by exactly one of k, b, w
whose scaled value fits in a long of w bits, getNum returns the decimal
value times 1024, 512, 2 or 1; for every other (NUL-free) string, not of
that form, getNum returns -1. -/
theorem getNum_reads_number (w : Nat) (hw : 0 < w) (s : List Char) :
    (∀ ds suf, s = ds ++ suf → ds ≠ [] → (∀ c ∈ ds, isDecimal c = true) →
        suf ∈ [[], ['k'], ['b'], ['w']] →
        fitsLong w ((decimalValue ds : Int) * (suffixMultiplier suf : Int)) →
        getNum w s = (decimalValue ds : Int) * (suffixMultiplier suf : Int))
    ∧ ((∀ c ∈ s, c ≠ Char.ofNat 0) → ¬ wellFormedNum s → getNum w s = -1) := by
  constructor
  · intro ds suf hs hne hdig hsuf hfit
    subst hs
    obtain ⟨d, ds', rfl⟩ := List.exists_cons_of_ne_nil hne
    have hd : isDecimal d = true := hdig d (by simp)
    have htake : (d :: ds' ++ suf).takeWhile isDecimal = d :: ds' := by
      rw [List.takeWhile_append_of_pos hdig]
      simp only [List.mem_cons, List.mem_singleton, List.not_mem_nil, or_false] at hsuf
      rcases hsuf with rfl | rfl | rfl | rfl <;> simp <;> decide
    have hdrop : (d :: ds' ++ suf).dropWhile isDecimal = suf := by
      rw [List.dropWhile_append_of_pos hdig]
      simp only [List.mem_cons, List.mem_singleton, List.not_mem_nil, or_false] at hsuf
      rcases hsuf with rfl | rfl | rfl | rfl <;> simp <;> decide
    have hfitv : fitsLong w (decimalValue (d :: ds') : Int) := by
      apply fitsLong_of_mul w _ (suffixMultiplier suf) _ hfit
      unfold suffixMultiplier
      split_ifs <;> decide
    unfold getNum
    rw [getNumDigits_eq w hw, htake, hdrop]
    have hderef : deref (d :: ds' ++ suf) = d := rfl
    simp only [hderef, hd, Bool.not_true, Bool.false_eq_true, if_false]
    simp only [List.mem_cons, List.mem_singleton, List.not_mem_nil, or_false] at hsuf
    rcases hsuf with rfl | rfl | rfl | rfl
    · have h0 : deref ([] : List Char) = Char.ofNat 0 := rfl
      have hk : ¬ (Char.ofNat 0 = 'k') := by decide
      have hb : ¬ (Char.ofNat 0 = 'b') := by decide
      have hww : ¬ (Char.ofNat 0 = 'w') := by decide
      simp only [h0, hk, hb, hww, if_false, if_true]
      rw [wrapLong_of_fits w hw _ hfitv]
      simp [suffixMultiplier]
    · have h0 : deref ['k'] = 'k' := rfl
      have h1 : deref (['k'] : List Char).tail = Char.ofNat 0 := rfl
      simp only [h0, h1, if_true, ne_eq, not_true_eq_false, if_false]
      rw [wrapLong_mul_congr]
      have e : suffixMultiplier ['k'] = 1024 := rfl
      rw [e] at hfit ⊢
      exact wrapLong_of_fits w hw _ hfit
    · have h0 : deref ['b'] = 'b' := rfl
      have h1 : deref (['b'] : List Char).tail = Char.ofNat 0 := rfl
      have hk : ¬ ('b' = 'k') := by decide
      simp only [h0, h1, hk, if_true, ne_eq, not_true_eq_false, if_false]
      rw [wrapLong_mul_congr]
      have e : suffixMultiplier ['b'] = 512 := rfl
      rw [e] at hfit ⊢
      exact wrapLong_of_fits w hw _ hfit
    · have h0 : deref ['w'] = 'w' := rfl
      have h1 : deref (['w'] : List Char).tail = Char.ofNat 0 := rfl
      have hk : ¬ ('w' = 'k') := by decide
      have hb : ¬ ('w' = 'b') := by decide
      simp only [h0, h1, hk, hb, if_true, ne_eq, not_true_eq_false, if_false]
      rw [wrapLong_mul_congr]
      have e : suffixMultiplier ['w'] = 2 := rfl
      rw [e] at hfit ⊢
      exact wrapLong_of_fits w hw _ hfit
  · intro hnul hnwf
    unfold getNum
    by_cases hd : isDecimal (deref s) = true
    swap
    · simp [hd]
    simp only [hd, Bool.not_true, Bool.false_eq_true, if_false]
    rw [getNumDigits_eq w hw]
    simp only
    have hsplit : s = s.takeWhile isDecimal ++ s.dropWhile isDecimal :=
      (List.takeWhile_append_dropWhile isDecimal s).symm
    have htne : s.takeWhile isDecimal ≠ [] := by
      cases s with
      | nil => exact absurd hd (by decide)
      | cons c cs =>
        have : isDecimal c = true := hd
        simp [List.takeWhile_cons, this]
    have hall : ∀ c ∈ s.takeWhile isDecimal, isDecimal c = true :=
      fun c hc => List.mem_takeWhile_imp hc
    have hbad : ∀ suf, suf ∈ [[], ['k'], ['b'], ['w']] → s.dropWhile isDecimal ≠ suf := by
      intro suf hsuf heq
      exact hnwf ⟨_, suf, by rw [← heq]; exact hsplit, htne, hall, hsuf⟩
    cases hrest : s.dropWhile isDecimal with
    | nil => exact absurd hrest (hbad [] (by simp))
    | cons c rest =>
      have hcmem : c ∈ s := by
        have : c ∈ s.dropWhile isDecimal := by rw [hrest]; simp
        exact (List.dropWhile_sublist isDecimal).subset this
      have hc0 : c ≠ Char.ofNat 0 := hnul c hcmem
      have hderef : deref (c :: rest) = c := rfl
      simp only [hderef, List.tail_cons, hc0, if_false]
      cases rest with
      | nil =>
        have h1 := hbad ['k'] (by simp)
        have h2 := hbad ['b'] (by simp)
        have h3 := hbad ['w'] (by simp)
        rw [hrest] at h1 h2 h3
        have hk : c ≠ 'k' := fun h => h1 (by rw [h])
        have hb : c ≠ 'b' := fun h => h2 (by rw [h])
        have hw' : c ≠ 'w' := fun h => h3 (by rw [h])
        simp [hk, hb, hw']
      | cons c2 rest2 =>
        have hc2mem : c2 ∈ s := by
          have : c2 ∈ s.dropWhile isDecimal := by rw [hrest]; simp
          exact (List.dropWhile_sublist isDecimal).subset this
        have hc2 : c2 ≠ Char.ofNat 0 := hnul c2 hc2mem
        have hderef2 : deref (c2 :: rest2) = c2 := rfl
        simp only [hderef2, ne_eq, hc2, not_false_eq_true, if_true]
        split_ifs <;> rfl

/-- Witness for C9 at a 64-bit long: 12k is 12288 and 12kk is rejected. -/
theorem getNum_reads_number_witness :
    getNum 64 ['1', '2', 'k'] = 12288 ∧ getNum 64 ['1', '2', 'k', 'k'] = -1 :=
  ⟨by
      have h := (getNum_reads_number 64 (by decide) ['1', '2', 'k']).1 ['1', '2'] ['k'] rfl
        (by decide) (by decide) (by decide) (by unfold fitsLong; decide)
      simpa [decimalValue, decimalFrom, suffixMultiplier] using h,
   (getNum_reads_number 64 (by decide) ['1', '2', 'k', 'k']).2 (by decide)
     (by
       rintro ⟨ds, suf, hs, -, hdig, hsuf⟩
       simp only [List.mem_cons, List.mem_singleton, List.not_mem_nil, or_false] at hsuf
       rcases hsuf with rfl | rfl | rfl | rfl
       · simp at hs; subst hs; exact absurd (hdig 'k' (by simp)) (by decide)
       · have : ds = ['1', '2', 'k'] := by
           have := congrArg List.dropLast hs
           simpa using this.symm
         subst this; exact absurd (hdig 'k' (by simp)) (by decide)
       · have := congrArg List.getLast? hs
         simp at this
       · have := congrArg List.getLast? hs
         simp at this)⟩

theorem chattrFlagChars_ok (imm app : Nat) (cs : List Char) (f f' : Nat)
    (hnul : Char.ofNat 0 ∉ cs) (h : chattrFlagChars imm app cs f = .ok f') :
    ∀ k, f'.testBit k
      = (f.testBit k || (decide ('i' ∈ cs) && imm.testBit k) || (decide ('a' ∈ cs) && app.testBit k)) := by
  induction cs generalizing f with
  | nil =>
    simp only [chattrFlagChars, Except.ok.injEq] at h
    subst h
    simp
  | cons c cs ih =>
    have hc0 : c ≠ Char.ofNat 0 := fun e => hnul (by simp [e])
    have hnul' : Char.ofNat 0 ∉ cs := fun e => hnul (by simp [e])
    unfold chattrFlagChars at h
    rw [if_neg hc0] at h
    intro k
    by_cases hi : c = 'i'
    · rw [if_pos hi] at h
      rw [ih _ hnul' h k, Nat.testBit_lor]
      subst hi
      have hai : ¬ ('a' = 'i') := by decide
      by_cases e1 : 'i' ∈ cs <;> by_cases e2 : 'a' ∈ cs <;>
        simp [e1, e2, hai]
    · rw [if_neg hi] at h
      by_cases ha : c = 'a'
      · rw [if_pos ha] at h
        rw [ih _ hnul' h k, Nat.testBit_lor]
        subst ha
        have hia : ¬ ('i' = 'a') := by decide
        by_cases e1 : 'i' ∈ cs <;> by_cases e2 : 'a' ∈ cs <;>
          simp [e1, e2, hia] <;>
          cases f.testBit k <;> cases imm.testBit k <;> cases app.testBit k <;> simp
      · rw [if_neg ha] at h
        exact absurd h (by simp)

theorem namedFlag_cons (sign fl : Char) (o : List Char) (opts : List (List Char)) :
    namedFlag sign fl (o :: opts) ↔ (deref o = sign ∧ fl ∈ o.tail) ∨ namedFlag sign fl opts := by
  simp [namedFlag]

theorem namedFlag_nil (sign fl : Char) : ¬ namedFlag sign fl [] := by
  simp [namedFlag]

theorem chattrOptions_done (imm app : Nat) (args : List (List Char)) (argc : Int)
    (onFlags offFlags on' off' : Nat) (n : Int) (files : List (List Char))
    (hnul : ∀ a ∈ args, Char.ofNat 0 ∉ a)
    (h : chattrOptions imm app args argc onFlags offFlags = .done on' off' n files) :
    files = args.dropWhile isOptionArg ∧
    n = argc - (args.takeWhile isOptionArg).length ∧
    (∀ k, on'.testBit k
      = (onFlags.testBit k
          || (decide (namedFlag '+' 'i' (args.takeWhile isOptionArg)) && imm.testBit k)
          || (decide (namedFlag '+' 'a' (args.takeWhile isOptionArg)) && app.testBit k))) ∧
    (∀ k, off'.testBit k
      = (offFlags.testBit k
          || (decide (namedFlag '-' 'i' (args.takeWhile isOptionArg)) && imm.testBit k)
          || (decide (namedFlag '-' 'a' (args.takeWhile isOptionArg)) && app.testBit k))) := by
  induction args generalizing argc onFlags offFlags with
  | nil => simp [chattrOptions] at h
  | cons arg rest ih =>
    have hnul' : ∀ a ∈ rest, Char.ofNat 0 ∉ a := fun a ha => hnul a (by simp [ha])
    have hnula : Char.ofNat 0 ∉ arg.tail := fun e => hnul arg (by simp) (List.mem_of_mem_tail e)
    unfold chattrOptions at h
    by_cases hopt : deref arg = '-' ∨ deref arg = '+'
    · have hopt' : isOptionArg arg = true := by simp [isOptionArg, hopt]
      rw [if_pos hopt] at h
      simp only [List.takeWhile_cons, hopt', if_true, List.dropWhile_cons, List.length_cons]
      by_cases hp : deref arg = '+'
      · rw [if_pos hp] at h
        have hm : deref arg ≠ '-' := by rw [hp]; decide
        cases hf : chattrFlagChars imm app arg.tail onFlags with
        | error c => rw [hf] at h; simp at h
        | ok f =>
          rw [hf] at h
          simp only at h
          obtain ⟨h1, h2, h3, h4⟩ := ih _ _ _ hnul' h
          have hbits := chattrFlagChars_ok imm app _ _ _ hnula hf
          refine ⟨h1, ?_, ?_, ?_⟩
          · rw [h2]; push_cast; ring
          · intro k
            rw [h3 k, hbits k]
            simp only [namedFlag_cons, hp, true_and]
            by_cases e1 : 'i' ∈ arg.tail <;> by_cases e2 : 'a' ∈ arg.tail <;>
              by_cases e3 : namedFlag '+' 'i' (rest.takeWhile isOptionArg) <;>
              by_cases e4 : namedFlag '+' 'a' (rest.takeWhile isOptionArg) <;>
              simp [e1, e2, e3, e4] <;>
              cases onFlags.testBit k <;> cases imm.testBit k <;> cases app.testBit k <;> simp
          · intro k
            rw [h4 k]
            simp [namedFlag_cons, hm]
      · rw [if_neg hp] at h
        have hm : deref arg = '-' := hopt.resolve_right hp
        cases hf : chattrFlagChars imm app arg.tail offFlags with
        | error c => rw [hf] at h; simp at h
        | ok f =>
          rw [hf] at h
          simp only at h
          obtain ⟨h1, h2, h3, h4⟩ := ih _ _ _ hnul' h
          have hbits := chattrFlagChars_ok imm app _ _ _ hnula hf
          refine ⟨h1, ?_, ?_, ?_⟩
          · rw [h2]; push_cast; ring
          · intro k
            rw [h3 k]
            simp [namedFlag_cons, hp]
          · intro k
            rw [h4 k, hbits k]
            simp only [namedFlag_cons, hm, true_and]
            by_cases e1 : 'i' ∈ arg.tail <;> by_cases e2 : 'a' ∈ arg.tail <;>
              by_cases e3 : namedFlag '-' 'i' (rest.takeWhile isOptionArg) <;>
              by_cases e4 : namedFlag '-' 'a' (rest.takeWhile isOptionArg) <;>
              simp [e1, e2, e3, e4] <;>
              cases offFlags.testBit k <;> cases imm.testBit k <;> cases app.testBit k <;> simp
    · have hopt' : isOptionArg arg = false := by simp [isOptionArg, hopt]
      rw [if_neg hopt] at h
      simp only [ChattrParse.done.injEq] at h
      obtain ⟨rfl, rfl, rfl, rfl⟩ := h
      simp [List.takeWhile_cons, List.dropWhile_cons, hopt', namedFlag_nil]

theorem not32_testBit (x k : Nat) :
    (not32 x).testBit k = (x.testBit k ^^ decide (k < 32)) := by
  unfold not32
  rw [Nat.testBit_xor, Nat.testBit_two_pow_sub_one]

theorem chattrNewFlags_testBit (oldFlags onFlags offFlags k : Nat) :
    (chattrNewFlags oldFlags onFlags offFlags).testBit k
      = ((oldFlags.testBit k || onFlags.testBit k) && (offFlags.testBit k ^^ decide (k < 32))) := by
  unfold chattrNewFlags
  rw [Nat.testBit_and, Nat.testBit_or, not32_testBit]

theorem testBit_lt_32 (x k : Nat) (hx : x < 2 ^ 32) (hk : x.testBit k = true) : k < 32 := by
  by_contra hge
  have h1 : x < 2 ^ k := lt_of_lt_of_le hx (Nat.pow_le_pow_right (by decide) (by omega))
  rw [Nat.testBit_lt_two_pow h1] at hk
  exact absurd hk (by simp)

theorem flagSubsets_of_bits (imm app x : Nat) (b1 b2 : Bool)
    (h : ∀ k, x.testBit k = ((b1 && imm.testBit k) || (b2 && app.testBit k))) :
    x ∈ flagSubsets imm app := by
  have hx : x = (if b1 then imm else 0) ||| (if b2 then app else 0) := by
    apply Nat.eq_of_testBit_eq
    intro k
    rw [h k, Nat.testBit_or]
    cases b1 <;> cases b2 <;> simp
  rw [hx]
  cases b1 <;> cases b2 <;> simp [flagSubsets]

theorem chattrFiles_eq (env : ChattrEnv) (onFlags offFlags : Nat)
    (files : List (List Char)) (n : Int) (i : Nat) (tr : List ChattrEvent) :
    chattrFiles env onFlags offFlags files n i tr
      = if n ≤ files.length then
          .returned (tr ++ chattrVisits env onFlags offFlags i (files.take n.toNat))
        else .pastEnd (tr ++ chattrVisits env onFlags offFlags i (files.take n.toNat)) := by
  induction files generalizing n i tr with
  | nil =>
    unfold chattrFiles
    by_cases hn : n > 0
    · have h2 : ¬ (n ≤ (([] : List (List Char)).length : Int)) := by simp; omega
      rw [if_pos hn, if_neg h2]
      simp [chattrVisits]
    · have h2 : n ≤ (([] : List (List Char)).length : Int) := by simp; omega
      rw [if_neg hn, if_pos h2]
      simp [chattrVisits]
  | cons f rest ih =>
    unfold chattrFiles
    by_cases hn : n > 0
    · rw [if_pos hn]
      have ht : (f :: rest).take n.toNat = f :: rest.take (n - 1).toNat := by
        have e : n.toNat = (n - 1).toNat + 1 := by omega
        rw [e, List.take_succ_cons]
      have hlen : (n ≤ ((f :: rest).length : Int)) ↔ (n - 1 ≤ (rest.length : Int)) := by
        simp only [List.length_cons]; push_cast; omega
      rw [ht]
      simp only [chattrVisits, chattrVisit, hlen]
      cases ho : env.openOk i f with
      | false =>
        simp only [Bool.not_false, if_true, Bool.false_eq_true, if_false]
        rw [ih]
        split_ifs <;> simp
      | true =>
        simp only [Bool.not_true, Bool.false_eq_true, if_false, if_true]
        cases hg : env.getFlags i f with
        | none =>
          simp only
          rw [ih]
          split_ifs <;> simp
        | some oldFlags =>
          simp only [chattrNewFlags]
          by_cases hsame : (oldFlags ||| onFlags) &&& not32 offFlags = oldFlags
          · rw [if_pos hsame, if_pos hsame, ih]
            split_ifs <;> simp
          · rw [if_neg hsame, if_neg hsame]
            cases hs : env.setOk i f ((oldFlags ||| onFlags) &&& not32 offFlags) with
            | false =>
              simp only [Bool.not_false, if_true, Bool.false_eq_true, if_false]
              rw [ih]
              split_ifs <;> simp
            | true =>
              simp only [Bool.not_true, Bool.false_eq_true, if_false, if_true]
              rw [ih]
              split_ifs <;> simp
    · have h2 : n ≤ ((f :: rest).length : Int) := by
        simp only [List.length_cons]; push_cast; omega
      have h3 : n.toNat = 0 := by omega
      rw [if_neg hn, if_pos h2, h3]
      simp [chattrVisits]

theorem mem_chattrVisit (env : ChattrEnv) (onFlags offFlags : Nat) (i : Nat)
    (f name : List Char) (newFlags : Nat) :
    ChattrEvent.setFlags name newFlags ∈ chattrVisit env onFlags offFlags i f ↔
      f = name ∧ env.openOk i name = true ∧
        ∃ oldFlags, env.getFlags i name = some oldFlags ∧
          newFlags = (oldFlags ||| onFlags) &&& not32 offFlags ∧ newFlags ≠ oldFlags := by
  unfold chattrVisit
  cases ho : env.openOk i f with
  | false =>
    simp only [Bool.false_eq_true, if_false]
    constructor
    · intro h; simp at h
    · rintro ⟨rfl, h, -⟩
      rw [ho] at h
      exact absurd h (by simp)
  | true =>
    simp only [if_true]
    cases hg : env.getFlags i f with
    | none =>
      constructor
      · intro h; simp at h
      · rintro ⟨rfl, -, old, h, -⟩
        rw [hg] at h
        exact absurd h (by simp)
    | some oldFlags =>
      simp only
      by_cases hsame : (oldFlags ||| onFlags) &&& not32 offFlags = oldFlags
      · rw [if_pos hsame]
        constructor
        · intro h; simp at h
        · rintro ⟨rfl, -, old, h, h1, h2⟩
          rw [hg] at h
          simp only [Option.some.injEq] at h
          subst h
          exact absurd (h1.trans hsame) h2
      · rw [if_neg hsame]
        constructor
        · intro h
          have h' : f = name ∧ (oldFlags ||| onFlags) &&& not32 offFlags = newFlags := by
            split_ifs at h <;> simp at h <;> exact ⟨h.1.symm, h.2.symm⟩
          obtain ⟨rfl, rfl⟩ := h'
          exact ⟨rfl, ho, oldFlags, hg, rfl, hsame⟩
        · rintro ⟨rfl, -, old, h, h1, -⟩
          rw [hg] at h
          simp only [Option.some.injEq] at h
          subst h
          subst h1
          split_ifs <;> simp

theorem mem_chattrVisits (env : ChattrEnv) (onFlags offFlags : Nat) (i : Nat)
    (fs : List (List Char)) (name : List Char) (newFlags : Nat) :
    ChattrEvent.setFlags name newFlags ∈ chattrVisits env onFlags offFlags i fs ↔
      ∃ j, fs[j]? = some name ∧ env.openOk (i + j) name = true ∧
        ∃ oldFlags, env.getFlags (i + j) name = some oldFlags ∧
          newFlags = (oldFlags ||| onFlags) &&& not32 offFlags ∧ newFlags ≠ oldFlags := by
  induction fs generalizing i with
  | nil => simp [chattrVisits]
  | cons f rest ih =>
    simp only [chattrVisits, List.mem_append, mem_chattrVisit, ih]
    constructor
    · rintro (⟨rfl, h1, h2⟩ | ⟨j, hj, h1, h2⟩)
      · exact ⟨0, by simp, by simpa using h1, by simpa using h2⟩
      · exact ⟨j + 1, by simpa using hj, by rw [← Nat.add_assoc, Nat.add_right_comm]; exact h1,
          by rw [← Nat.add_assoc, Nat.add_right_comm]; exact h2⟩
    · rintro ⟨j, hj, h1, h2⟩
      cases j with
      | zero =>
        simp only [List.getElem?_cons_zero, Option.some.injEq] at hj
        exact Or.inl ⟨hj, by simpa using h1, by simpa using h2⟩
      | succ j =>
        refine Or.inr ⟨j, by simpa using hj, ?_, ?_⟩
        · rw [Nat.add_right_comm, Nat.add_assoc]; exact h1
        · rw [Nat.add_right_comm, Nat.add_assoc]; exact h2

theorem chattrArgs_accepted (imm app : Nat) (argc : Int) (argv : List (List Char))
    (onFlags offFlags : Nat) (n : Int) (files : List (List Char))
    (hacc : chattrArgs imm app argc argv = .accepted onFlags offFlags n files) :
    chattrOptions imm app argv.tail (argc - 1) 0 0 = .done onFlags offFlags n files ∧
      onFlags &&& offFlags = 0 ∧ 0 < n := by
  unfold chattrArgs at hacc
  cases hp : chattrOptions imm app argv.tail (argc - 1) 0 0 with
  | unknownFlag c => rw [hp] at hacc; simp at hacc
  | pastEnd => rw [hp] at hacc; simp at hacc
  | done on' off' n' files' =>
    rw [hp] at hacc
    simp only at hacc
    split_ifs at hacc with h1 h2 h3
    simp only [ChattrArgs.accepted.injEq] at hacc
    obtain ⟨rfl, rfl, rfl, rfl⟩ := hacc
    refine ⟨rfl, ?_, ?_⟩
    · simpa using h2
    · omega


theorem chattrArgs_accepted_count (imm app : Nat) (argc : Int) (argv : List (List Char))
    (onFlags offFlags : Nat) (n : Int) (files : List (List Char))
    (hlen : (argv.length : Int) = argc) (hnul : ∀ a ∈ argv, Char.ofNat 0 ∉ a)
    (hacc : chattrArgs imm app argc argv = .accepted onFlags offFlags n files) :
    n = files.length := by
  obtain ⟨hparse, -, -⟩ := chattrArgs_accepted imm app argc argv onFlags offFlags n files hacc
  have hnul' : ∀ a ∈ argv.tail, Char.ofNat 0 ∉ a := fun a ha => hnul a (List.mem_of_mem_tail ha)
  obtain ⟨hfiles, hn, -, -⟩ := chattrOptions_done imm app _ _ _ _ _ _ _ _ hnul' hparse
  have hsum := congrArg List.length (List.takeWhile_append_dropWhile isOptionArg argv.tail)
  rw [List.length_append, ← hfiles, List.length_tail] at hsum
  have hpos : 0 < argv.length := by
    cases argv with
    | nil => simp [chattrOptions] at hparse
    | cons a rest => simp
  omega

theorem do_chattr_trace (env : ChattrEnv) (imm app : Nat) (argc : Int)
    (argv : List (List Char)) (onFlags offFlags : Nat) (n : Int) (files : List (List Char))
    (hacc : chattrArgs imm app argc argv = .accepted onFlags offFlags n files) :
    (do_chattr env imm app argc argv).trace
      = chattrVisits env onFlags offFlags 0 (files.take n.toNat) := by
  unfold do_chattr
  rw [hacc]
  simp only
  rw [chattrFiles_eq]
  split_ifs <;> simp [Outcome.trace]

/-- Claim C7: do_chattr changes only the immutable and append-only flags.
For every accepted option list, onFlags and offFlags are subsets of the two
flag constants. What do_chattr does is, file by file in listed order: read
the old flag word and, unless it is unchanged, set
(oldFlags | onFlags) & ~offFlags as the new flag word; it sets no other
word, and it sets that word for every file whose word changes. For every
old flag word, every flag named after '+' is set in that new word, every
flag named after '-' is clear, and every bit outside the two flags is the
bit of the old word. -/
theorem do_chattr_changes_only_named_flags (imm app : Nat)
    (himm : imm < 2 ^ 32) (happ : app < 2 ^ 32)
    (argc : Int) (argv : List (List Char)) (hnul : ∀ a ∈ argv, Char.ofNat 0 ∉ a)
    (onFlags offFlags : Nat) (n : Int) (files : List (List Char))
    (hacc : chattrArgs imm app argc argv = .accepted onFlags offFlags n files) :
    onFlags ∈ flagSubsets imm app ∧ offFlags ∈ flagSubsets imm app ∧
    (∀ (env : ChattrEnv), (argv.length : Int) = argc →
        do_chattr env imm app argc argv
          = .returned (chattrVisits env onFlags offFlags 0 files)) ∧
    (∀ (env : ChattrEnv) (name : List Char) (newFlags : Nat),
        ChattrEvent.setFlags name newFlags ∈ (do_chattr env imm app argc argv).trace →
        ∃ j oldFlags, files[j]? = some name ∧ env.openOk j name = true ∧
          env.getFlags j name = some oldFlags ∧
          newFlags = (oldFlags ||| onFlags) &&& not32 offFlags ∧ newFlags ≠ oldFlags) ∧
    (∀ (env : ChattrEnv) (j : Nat) (name : List Char) (oldFlags : Nat),
        (argv.length : Int) = argc → files[j]? = some name → env.openOk j name = true →
        env.getFlags j name = some oldFlags →
        (oldFlags ||| onFlags) &&& not32 offFlags ≠ oldFlags →
        ChattrEvent.setFlags name ((oldFlags ||| onFlags) &&& not32 offFlags)
          ∈ (do_chattr env imm app argc argv).trace) ∧
    ∀ oldFlags, oldFlags < 2 ^ 32 →
      (namedFlag '+' 'i' (chattrOptionArgs argv) →
        ((oldFlags ||| onFlags) &&& not32 offFlags) &&& imm = imm) ∧
      (namedFlag '+' 'a' (chattrOptionArgs argv) →
        ((oldFlags ||| onFlags) &&& not32 offFlags) &&& app = app) ∧
      (namedFlag '-' 'i' (chattrOptionArgs argv) →
        ((oldFlags ||| onFlags) &&& not32 offFlags) &&& imm = 0) ∧
      (namedFlag '-' 'a' (chattrOptionArgs argv) →
        ((oldFlags ||| onFlags) &&& not32 offFlags) &&& app = 0) ∧
      (∀ k, imm.testBit k = false → app.testBit k = false →
        ((oldFlags ||| onFlags) &&& not32 offFlags).testBit k = oldFlags.testBit k) := by
  obtain ⟨hparse, hcons, hn⟩ := chattrArgs_accepted imm app argc argv onFlags offFlags n files hacc
  have hnul' : ∀ a ∈ argv.tail, Char.ofNat 0 ∉ a := fun a ha => hnul a (List.mem_of_mem_tail ha)
  obtain ⟨-, -, hon, hoff⟩ := chattrOptions_done imm app _ _ _ _ _ _ _ _ hnul' hparse
  simp only [Nat.zero_testBit, Bool.false_or] at hon hoff
  have hdisj : ∀ k, onFlags.testBit k = true → offFlags.testBit k = false := by
    intro k hk
    have := congrArg (fun x => Nat.testBit x k) hcons
    simp only [Nat.testBit_and, hk, Bool.true_and, Nat.zero_testBit] at this
    exact this
  have hnew : ∀ oldFlags k, ((oldFlags ||| onFlags) &&& not32 offFlags).testBit k
      = ((oldFlags.testBit k || onFlags.testBit k) && (offFlags.testBit k ^^ decide (k < 32))) :=
    fun o k => chattrNewFlags_testBit o onFlags offFlags k
  have hcount : (argv.length : Int) = argc → n = files.length :=
    fun hlen => chattrArgs_accepted_count imm app argc argv onFlags offFlags n files hlen hnul hacc
  refine ⟨flagSubsets_of_bits imm app _ _ _ hon, flagSubsets_of_bits imm app _ _ _ hoff,
    ?_, ?_, ?_, ?_⟩
  · intro env hlen
    unfold do_chattr
    rw [hacc]
    simp only
    rw [chattrFiles_eq, if_pos (le_of_eq (hcount hlen)), hcount hlen]
    simp
  · intro env name newFlags hmem
    rw [do_chattr_trace env imm app argc argv onFlags offFlags n files hacc,
      mem_chattrVisits] at hmem
    obtain ⟨j, hj, h1, oldFlags, h2, h3, h4⟩ := hmem
    rw [List.getElem?_take] at hj
    split_ifs at hj
    exact ⟨j, oldFlags, hj, by simpa using h1, by simpa using h2, h3, h4⟩
  · intro env j name oldFlags hlen hj ho hg hne
    rw [do_chattr_trace env imm app argc argv onFlags offFlags n files hacc,
      mem_chattrVisits, hcount hlen]
    refine ⟨j, ?_, by simpa using ho, oldFlags, by simpa using hg, rfl, hne⟩
    simpa using hj
  · intro oldFlags hold
    have hset : ∀ c : Nat, c < 2 ^ 32 → (∀ k, c.testBit k = true → onFlags.testBit k = true) →
        ((oldFlags ||| onFlags) &&& not32 offFlags) &&& c = c := by
      intro c hc hsub
      apply Nat.eq_of_testBit_eq
      intro k
      rw [Nat.testBit_and, hnew]
      cases hck : c.testBit k with
      | false => simp
      | true =>
        have h1 := hsub k hck
        have h2 := hdisj k h1
        have h3 : k < 32 := testBit_lt_32 c k hc hck
        simp [h1, h2, h3]
    have hclr : ∀ c : Nat, c < 2 ^ 32 → (∀ k, c.testBit k = true → offFlags.testBit k = true) →
        ((oldFlags ||| onFlags) &&& not32 offFlags) &&& c = 0 := by
      intro c hc hsub
      apply Nat.eq_of_testBit_eq
      intro k
      rw [Nat.testBit_and, hnew]
      cases hck : c.testBit k with
      | false => simp
      | true =>
        have h1 := hsub k hck
        have h3 : k < 32 := testBit_lt_32 c k hc hck
        simp [h1, h3]
    refine ⟨?_, ?_, ?_, ?_, ?_⟩
    · intro hnamed
      apply hset imm himm
      intro k hk
      rw [hon k]
      simp [show namedFlag '+' 'i' (List.takeWhile isOptionArg argv.tail) from hnamed, hk]
    · intro hnamed
      apply hset app happ
      intro k hk
      rw [hon k]
      simp [show namedFlag '+' 'a' (List.takeWhile isOptionArg argv.tail) from hnamed, hk]
    · intro hnamed
      apply hclr imm himm
      intro k hk
      rw [hoff k]
      simp [show namedFlag '-' 'i' (List.takeWhile isOptionArg argv.tail) from hnamed, hk]
    · intro hnamed
      apply hclr app happ
      intro k hk
      rw [hoff k]
      simp [show namedFlag '-' 'a' (List.takeWhile isOptionArg argv.tail) from hnamed, hk]
    · intro k hi ha
      rw [hnew, hon k, hoff k]
      simp only [hi, ha, Bool.and_false, Bool.or_false, Bool.false_bne]
      by_cases hk : k < 32
      · simp [hk]
      · have : oldFlags.testBit k = false := by
          by_contra hc
          exact hk (testBit_lt_32 oldFlags k hold (by simpa using hc))
        simp [hk, this]

/-- Witness for C7: chattr +i -a f with the constants 0x10 and 0x20, the
file f having the flag word 0x80020: do_chattr sets the flag word 0x80010,
in which the immutable flag is set, the append-only flag is clear and bit
19 is the old one. -/
theorem do_chattr_changes_only_named_flags_witness :
    do_chattr chattrEnvExample 16 32 4 [['c'], ['+', 'i'], ['-', 'a'], ['f']]
      = .returned [.openFile ['f'], .getFlags ['f'], .setFlags ['f'] 0x80010, .close ['f']] ∧
    ((0x80020 ||| 16) &&& not32 32) &&& 16 = 16 ∧
    ((0x80020 ||| 16) &&& not32 32) &&& 32 = 0 ∧
    (Nat.testBit ((0x80020 ||| 16) &&& not32 32) 19 = Nat.testBit 0x80020 19) :=
  have h := do_chattr_changes_only_named_flags 16 32 (by decide) (by decide) 4
    [['c'], ['+', 'i'], ['-', 'a'], ['f']] (by decide) 16 32 1 [['f']] (by decide)
  have hb := h.2.2.2.2.2 0x80020 (by decide)
  ⟨(h.2.2.1 chattrEnvExample (by decide)).trans (by decide),
   hb.1 (by decide), hb.2.2.2.1 (by decide), hb.2.2.2.2 19 (by decide) (by decide)⟩

theorem chattrOptions_all_options (imm app : Nat) (args : List (List Char)) (argc : Int)
    (onFlags offFlags : Nat) (h : ∀ a ∈ args, isOptionArg a = true) :
    chattrOptions imm app args argc onFlags offFlags = .pastEnd ∨
      ∃ c, chattrOptions imm app args argc onFlags offFlags = .unknownFlag c := by
  induction args generalizing argc onFlags offFlags with
  | nil => exact Or.inl rfl
  | cons arg rest ih =>
    have hopt : deref arg = '-' ∨ deref arg = '+' := by
      have := h arg (by simp)
      simpa [isOptionArg] using this
    have hrest : ∀ a ∈ rest, isOptionArg a = true := fun a ha => h a (by simp [ha])
    unfold chattrOptions
    rw [if_pos hopt]
    split_ifs
    · cases chattrFlagChars imm app arg.tail onFlags with
      | error c => exact Or.inr ⟨c, rfl⟩
      | ok f => exact ih _ _ _ hrest
    · cases chattrFlagChars imm app arg.tail offFlags with
      | error c => exact Or.inr ⟨c, rfl⟩
      | ok f => exact ih _ _ _ hrest

theorem do_chattr_all_options (env : ChattrEnv) (imm app : Nat) (argc : Int)
    (argv : List (List Char)) (h : ∀ a ∈ argv.tail, isOptionArg a = true) :
    do_chattr env imm app argc argv = .pastEnd [] ∨
      ∃ c, do_chattr env imm app argc argv
        = .returned [.stderr ("Unknown flag '".toList ++ [c] ++ "'\n".toList)] := by
  unfold do_chattr chattrArgs
  rcases chattrOptions_all_options imm app argv.tail (argc - 1) 0 0 h with e | ⟨c, e⟩
  · rw [e]; exact Or.inl rfl
  · rw [e]; exact Or.inr ⟨c, rfl⟩

/-- Claim C10 fails on the code: for chattr +i -a, where every argument is
an option, do_chattr reports no error; its option loop goes on to read the
argument vector at index argc, beyond the last argument, before the check
for missing file names is reached. -/
theorem do_chattr_only_options_reads_past_end (env : ChattrEnv) (imm app : Nat) :
    do_chattr env imm app 3 [['c', 'h', 'a', 't', 't', 'r'], ['+', 'i'], ['-', 'a']]
      = .pastEnd [] := by
  rcases do_chattr_all_options env imm app 3
    [['c', 'h', 'a', 't', 't', 'r'], ['+', 'i'], ['-', 'a']] (by decide) with h | ⟨c, h⟩
  · exact h
  · exfalso
    simp [do_chattr, chattrArgs, chattrOptions, chattrFlagChars, deref] at h

theorem pathComponents_unfold (path : List Char) :
    pathComponents path = (splitAtColon path).1 ::
      (match (splitAtColon path).2 with
       | none => []
       | some rest => pathComponents rest) := by
  induction path with
  | nil => rfl
  | cons c cs ih =>
    by_cases hc : c = ':'
    · simp [pathComponents, splitAtColon, hc]
    · simp only [pathComponents, splitAtColon, hc, if_false]
      rw [ih]

theorem splitAtColon_length (path rest : List Char)
    (h : (splitAtColon path).2 = some rest) : rest.length < path.length := by
  induction path with
  | nil => simp [splitAtColon] at h
  | cons c cs ih =>
    by_cases hc : c = ':'
    · simp only [splitAtColon, hc, if_true, Option.some.injEq] at h
      subst h
      simp
    · simp only [splitAtColon, hc, if_false] at h
      have := ih h
      simp only [List.length_cons]
      omega

theorem whereLoop_null (env : WhereEnv) (program : List Char) (fuel i : Nat) (found : Bool)
    (tr : List WhereEvent) : whereLoop env program fuel none i found tr = some (found, tr) := by
  cases fuel <;> rfl

theorem whereLoop_eq (env : WhereEnv) (program : List Char) (fuel : Nat) (path : List Char)
    (i : Nat) (found : Bool) (tr : List WhereEvent) (hfuel : path.length < fuel) :
    whereLoop env program fuel (some path) i found tr
      = some (found || whereSucceeds env program i (pathComponents path),
              tr ++ whereVisits env program i (pathComponents path)) := by
  induction fuel generalizing path i found tr with
  | zero => omega
  | succ fuel ih =>
    have hnext : ∀ (fnd : Bool) (t : List WhereEvent),
        whereLoop env program fuel (splitAtColon path).2 (i + 1) fnd t
          = some (fnd || whereSucceeds env program (i + 1)
                    (match (splitAtColon path).2 with
                     | none => []
                     | some rest => pathComponents rest),
                  t ++ whereVisits env program (i + 1)
                    (match (splitAtColon path).2 with
                     | none => []
                     | some rest => pathComponents rest)) := by
      intro fnd t
      cases hs : (splitAtColon path).2 with
      | none => simp [whereLoop_null, whereSucceeds, whereVisits]
      | some rest =>
        have hlen := splitAtColon_length path rest hs
        exact ih rest (i + 1) fnd t (by omega)
    rw [pathComponents_unfold path]
    unfold whereLoop
    simp only [whereVisits, whereSucceeds, whereVisit]
    cases ha : env.access i ((splitAtColon path).1 ++ "/".toList ++ program) with
    | none =>
      simp only [hnext, Option.isNone_none, Bool.true_or, Bool.or_true]
      simp
    | some errno =>
      by_cases he : errno = env.enoent
      · simp [he, hnext]
      · simp [he, hnext]

theorem pathComponents_no_colon (path : List Char) :
    ∀ d ∈ pathComponents path, ':' ∉ d := by
  induction path with
  | nil => simp [pathComponents]
  | cons c cs ih =>
    by_cases hc : c = ':'
    · simp only [pathComponents, hc, if_true, List.mem_cons]
      rintro d (rfl | hd)
      · simp
      · exact ih d hd
    · simp only [pathComponents, hc, if_false]
      cases hp : pathComponents cs with
      | nil => simp [Ne.symm hc]
      | cons d ds =>
        rw [hp] at ih
        simp only [List.mem_cons]
        rintro d' (rfl | hd)
        · have := ih d (by simp)
          simp [Ne.symm hc, this]
        · exact ih d' (by simp [hd])

theorem pathComponents_ne_nil (path : List Char) : pathComponents path ≠ [] := by
  rw [pathComponents_unfold]
  simp

theorem intercalate_colon_cons (d e : List Char) (ds : List (List Char)) :
    List.intercalate [':'] (d :: e :: ds) = d ++ ':' :: List.intercalate [':'] (e :: ds) := by
  simp [List.intercalate, List.intersperse]

theorem pathComponents_intercalate (path : List Char) :
    List.intercalate [':'] (pathComponents path) = path := by
  induction path with
  | nil => rfl
  | cons c cs ih =>
    cases hp : pathComponents cs with
    | nil => exact absurd hp (pathComponents_ne_nil cs)
    | cons d ds =>
      rw [hp] at ih
      by_cases hc : c = ':'
      · simp only [pathComponents, hc, if_true, hp]
        rw [intercalate_colon_cons, ih]
        rfl
      · simp only [pathComponents, hc, if_false, hp]
        cases ds with
        | nil =>
          simp only [List.intercalate, List.intersperse, List.flatten, List.append_nil] at ih ⊢
          rw [ih]
        | cons e es =>
          rw [intercalate_colon_cons] at ih ⊢
          rw [← ih]
          rfl

/-- Claim C1: for a program name without '/' and a PATH value whose
colon-separated components are all non-empty, do_where calls access on
dir/program for every component in listed order, never stopping early;
after each call it prints dir/program when access succeeded, dir/program
with the error text when it failed with an error other than ENOENT, and
nothing when it failed with ENOENT; and it prints the not-found line
exactly when access succeeded for no component. -/
theorem do_where_reports_every_match (env : WhereEnv) (cmd program path : List Char)
    (rest : List (List Char))
    (hprog : '/' ∉ program) (hcomp : ∀ d ∈ pathComponents path, d ≠ [])
    (halloc : env.allocOk = true) :
    do_where env (some path) (cmd :: program :: rest)
      = some (.returned (whereVisits env program 0 (pathComponents path) ++
          if whereSucceeds env program 0 (pathComponents path) then []
          else [.stdout ("Program \"".toList ++ program ++ "\" not found in PATH\n".toList)])) := by
  have _ := hcomp
  unfold do_where
  simp only [hprog, if_false, halloc, Bool.not_true, Bool.false_eq_true]
  rw [whereLoop_eq env program (path.length + 1) path 0 false [] (by omega)]
  cases whereSucceeds env program 0 (pathComponents path) <;> simp

/-- Witness for C1: PATH=/usr/bin:/bin:/sbin and the program ls. -/
theorem do_where_reports_every_match_witness :
    do_where whereEnvExample (some "/usr/bin:/bin:/sbin".toList) ["where".toList, "ls".toList]
      = some (.returned [.access "/usr/bin/ls".toList, .access "/bin/ls".toList,
          .stdout "/bin/ls\n".toList, .access "/sbin/ls".toList,
          .stdout "/sbin/ls: Permission denied\n".toList]) :=
  (do_where_reports_every_match whereEnvExample "where".toList "ls".toList
    "/usr/bin:/bin:/sbin".toList [] (by decide) (by decide) rfl).trans (by decide)

/-- Claim C8 fails on the code: with an empty PATH the path do_where tests
is /ls, not ./ls; the test for an empty directory name compares the pointer
instead of the character it points at. -/
theorem do_where_empty_component_tests_root :
    do_where whereEnvExample (some []) ["where".toList, "ls".toList]
      = some (.returned [.access "/ls".toList,
          .stdout "Program \"ls\" not found in PATH\n".toList]) := by
  decide

theorem echoLoop_rest (a : List Char) (rest : List (List Char)) (out : List Char) :
    echoLoop (a :: rest) (rest.length + 1) false out
      = some (out ++ (rest.map (fun x => ' ' :: x)).flatten) := by
  induction rest generalizing a out with
  | nil => simp [echoLoop]
  | cons b rest ih =>
    unfold echoLoop
    have h : ((b :: rest).length : Int) + 1 > 1 := by
      simp only [List.length_cons]; push_cast; omega
    rw [if_pos h]
    have e : ((b :: rest).length : Int) + 1 - 1 = (rest.length : Int) + 1 := by
      simp only [List.length_cons]; push_cast; omega
    rw [e, ih]
    simp

theorem intercalate_space (a : List Char) (rest : List (List Char)) :
    List.intercalate [' '] (a :: rest) = a ++ (rest.map (fun x => ' ' :: x)).flatten := by
  induction rest generalizing a with
  | nil => simp [List.intercalate]
  | cons b rest ih =>
    have h : List.intercalate [' '] (a :: b :: rest)
        = a ++ ' ' :: List.intercalate [' '] (b :: rest) := by
      simp [List.intercalate, List.intersperse]
    rw [h, ih]
    simp

/-- Claim C3: for every argument vector of length argc >= 1, do_echo writes
the arguments after the command name joined by single spaces and followed
by one newline. -/
theorem do_echo_joins_arguments (argc : Int) (argv : List (List Char))
    (hargc : 1 ≤ argc) (hlen : (argv.length : Int) = argc) :
    do_echo argc argv = some (List.intercalate [' '] argv.tail ++ ['\n']) := by
  subst hlen
  unfold do_echo
  match argv, hargc with
  | [cmd], _ => simp [echoLoop, List.intercalate]
  | cmd :: a :: rest, _ =>
    unfold echoLoop
    have h : (((cmd :: a :: rest).length : Nat) : Int) > 1 := by
      simp only [List.length_cons]; push_cast; omega
    rw [if_pos h]
    have e : (((cmd :: a :: rest).length : Nat) : Int) - 1 = (rest.length : Int) + 1 := by
      simp only [List.length_cons]; push_cast; omega
    rw [e]
    simp only [Bool.not_true, Bool.false_eq_true, if_false, List.nil_append, List.tail_cons]
    rw [echoLoop_rest, intercalate_space]

/-- Witness for C3: echo hello world writes hello world and a newline. -/
theorem do_echo_joins_arguments_witness :
    do_echo 3 ["echo".toList, "hello".toList, "world".toList] = some "hello world\n".toList :=
  (do_echo_joins_arguments 3 ["echo".toList, "hello".toList, "world".toList]
    (by decide) (by decide)).trans (by decide)

/-- Claim C2: do_exit ends the process, with status 0, exactly when the
process id is not 1; when the process id is 1 it reports an error and
returns to its caller, whatever its arguments are. -/
theorem do_exit_refuses_init (pid argc : Int) (argv : List (List Char)) :
    (do_exit pid argc argv = .exited 0 ↔ pid ≠ 1) ∧
    (pid = 1 → do_exit pid argc argv = .returned "You are the INIT process!\n".toList) := by
  unfold do_exit
  by_cases h : pid = 1 <;> simp [h]

/-- Witness for C2: process 1 is told off and stays, process 4711 ends
with status 0. -/
theorem do_exit_refuses_init_witness :
    do_exit 1 2 ["exit".toList, "now".toList] = .returned "You are the INIT process!\n".toList ∧
    do_exit 4711 1 ["exit".toList] = .exited 0 :=
  ⟨(do_exit_refuses_init 1 2 ["exit".toList, "now".toList]).2 rfl,
   (do_exit_refuses_init 4711 1 ["exit".toList]).1.mpr (by decide)⟩

/-- Claim C4: with no argument do_cd looks up HOME and attempts chdir to
its value; if HOME is unset it reports an error and attempts no chdir;
with an argument it attempts chdir to argv[1] and never looks up HOME. -/
theorem do_cd_target (env : CdEnv) (argc : Int) (argv : List (List Char)) :
    (argc ≤ 1 → ∀ home, env.getenv "HOME".toList = some home →
      do_cd env argc argv = some (.getenv "HOME".toList :: .chdir home ::
        (if !env.chdirOk home then [.perror home] else []))) ∧
    (argc ≤ 1 → env.getenv "HOME".toList = none →
      do_cd env argc argv
        = some [.getenv "HOME".toList, .stderr "No HOME environment variable\n".toList] ∧
      ∀ tr, do_cd env argc argv = some tr → ∀ p, CdEvent.chdir p ∉ tr) ∧
    (1 < argc → ∀ path, argv[1]? = some path →
      do_cd env argc argv = some (.chdir path ::
        (if !env.chdirOk path then [.perror path] else [])) ∧
      (∀ tr, do_cd env argc argv = some tr → ∀ name, CdEvent.getenv name ∉ tr) ∧
      ∀ getenv2, do_cd ⟨getenv2, env.chdirOk⟩ argc argv = do_cd env argc argv) := by
  refine ⟨?_, ?_, ?_⟩
  · intro h home hh
    have h' : ¬ argc > 1 := by omega
    unfold do_cd
    rw [if_neg h', hh]
  · intro h hh
    have h' : ¬ argc > 1 := by omega
    have e : do_cd env argc argv
        = some [.getenv "HOME".toList, .stderr "No HOME environment variable\n".toList] := by
      unfold do_cd
      rw [if_neg h', hh]
    refine ⟨e, ?_⟩
    intro tr htr p
    rw [e] at htr
    simp only [Option.some.injEq] at htr
    subst htr
    simp
  · intro h path hp
    have h' : argc > 1 := h
    have e : ∀ env' : CdEnv, do_cd env' argc argv = some (.chdir path ::
        (if !env'.chdirOk path then [.perror path] else [])) := by
      intro env'
      unfold do_cd
      rw [if_pos h', hp]
    refine ⟨e env, ?_, ?_⟩
    · intro tr htr name
      rw [e env] at htr
      simp only [Option.some.injEq] at htr
      subst htr
      cases env.chdirOk path <;> simp
    · intro getenv2
      rw [e, e]

/-- Witness for C4: cd alone goes to HOME, cd /tmp goes to /tmp. -/
theorem do_cd_target_witness :
    do_cd cdEnvExample 1 ["cd".toList]
      = some [.getenv "HOME".toList, .chdir "/root".toList] ∧
    do_cd cdEnvExample 2 ["cd".toList, "/tmp".toList] = some [.chdir "/tmp".toList] :=
  ⟨((do_cd_target cdEnvExample 1 ["cd".toList]).1 (by decide) "/root".toList rfl).trans
      (by decide),
   (((do_cd_target cdEnvExample 2 ["cd".toList, "/tmp".toList]).2.2 (by decide)
      "/tmp".toList rfl).1).trans (by decide)⟩

theorem append_split_of_not_mem {α : Type} (l1 l2 pre post : List α) (x : α)
    (h : l1 ++ l2 = pre ++ x :: post) (hx : x ∉ l1) :
    ∃ pre', pre = l1 ++ pre' ∧ l2 = pre' ++ x :: post := by
  induction l1 generalizing pre with
  | nil => exact ⟨pre, rfl, h⟩
  | cons a l1 ih =>
    cases pre with
    | nil =>
      simp only [List.cons_append, List.nil_append, List.cons.injEq] at h
      exact absurd h.1.symm (fun e => hx (by simp [e]))
    | cons b pre =>
      simp only [List.cons_append, List.cons.injEq] at h
      obtain ⟨rfl, h⟩ := h
      obtain ⟨pre', rfl, h2⟩ := ih pre h (fun e => hx (by simp [e]))
      exact ⟨pre', rfl, h2⟩

theorem append_split_cases {α : Type} (l1 l2 pre post : List α) (x : α)
    (h : l1 ++ l2 = pre ++ x :: post) :
    (∃ q, l1 = pre ++ x :: q ∧ post = q ++ l2) ∨ (∃ p, pre = l1 ++ p ∧ l2 = p ++ x :: post) := by
  induction l1 generalizing pre with
  | nil => exact Or.inr ⟨pre, rfl, h⟩
  | cons a l1 ih =>
    cases pre with
    | nil =>
      simp only [List.cons_append, List.nil_append, List.cons.injEq] at h
      obtain ⟨rfl, h⟩ := h
      exact Or.inl ⟨l1, rfl, h.symm⟩
    | cons b pre =>
      simp only [List.cons_append, List.cons.injEq] at h
      obtain ⟨rfl, h⟩ := h
      rcases ih pre h with ⟨q, rfl, h2⟩ | ⟨p, rfl, h2⟩
      · exact Or.inl ⟨q, rfl, h2⟩
      · exact Or.inr ⟨p, rfl, h2⟩

theorem mem_of_split {α : Type} (l pre post : List α) (x : α) (h : l = pre ++ x :: post) :
    x ∈ l := by
  rw [h]; simp

theorem ddCleanup_no_transfer (env : DdEnv) (st : DdState) :
    ∀ e ∈ ddCleanup env st, e.isTransfer = false := by
  intro e he
  unfold ddCleanup at he
  simp only [List.mem_append, List.mem_cons, List.mem_singleton, List.not_mem_nil,
    or_false] at he
  rcases he with ((rfl | rfl) | he) | rfl | rfl
  · rfl
  · rfl
  · split_ifs at he
    · simp only [List.mem_singleton] at he
      subst he
      rfl
    · simp at he
  · rfl
  · rfl

theorem ddWriteLoop_events (env : DdEnv) (blockSize : Int) (fuel : Nat) (st : DdState) :
    ∀ e ∈ (ddWriteLoop env blockSize fuel st).1, (∃ c r, e = .write c r) ∨ e = .perrorOut := by
  induction fuel generalizing st with
  | zero =>
    intro e he
    simp only [ddWriteLoop] at he
    split_ifs at he <;> simp at he
  | succ fuel ih =>
    intro e he
    simp only [ddWriteLoop] at he
    split_ifs at he with h1 h2
    · simp only [List.mem_cons, List.mem_singleton, List.not_mem_nil, or_false] at he
      rcases he with rfl | rfl
      · exact Or.inl ⟨_, _, rfl⟩
      · exact Or.inr rfl
    · simp only [List.mem_cons] at he
      rcases he with rfl | he
      · exact Or.inl ⟨_, _, rfl⟩
      · exact ih _ e he
    · simp at he

theorem ddWriteLoop_no_poll (env : DdEnv) (blockSize : Int) (fuel : Nat) (st : DdState)
    (b : Bool) : DdEvent.poll b ∉ (ddWriteLoop env blockSize fuel st).1 := by
  intro h
  rcases ddWriteLoop_events env blockSize fuel st _ h with ⟨c, r, e⟩ | e <;> exact absurd e (by simp)

theorem ddWriteLoop_no_read (env : DdEnv) (blockSize : Int) (fuel : Nat) (st : DdState)
    (n : Int) : DdEvent.read n ∉ (ddWriteLoop env blockSize fuel st).1 := by
  intro h
  rcases ddWriteLoop_events env blockSize fuel st _ h with ⟨c, r, e⟩ | e <;> exact absurd e (by simp)

theorem ddWriteLoop_before_write (env : DdEnv) (blockSize : Int) (fuel : Nat) (st : DdState)
    (pre post : List DdEvent) (c r : Int)
    (h : (ddWriteLoop env blockSize fuel st).1 = pre ++ .write c r :: post) :
    pre = [] ∨ ∃ pre' c' r', pre = pre' ++ [.write c' r'] := by
  induction fuel generalizing st pre with
  | zero =>
    simp only [ddWriteLoop] at h
    split_ifs at h <;> exact absurd (mem_of_split _ _ _ _ h) (by simp)
  | succ fuel ih =>
    simp only [ddWriteLoop] at h
    split_ifs at h with h1 h2
    · cases pre with
      | nil => exact Or.inl rfl
      | cons a pre =>
        simp only [List.cons_append, List.cons.injEq] at h
        exact absurd (mem_of_split _ _ _ _ h.2) (by simp)
    · cases pre with
      | nil => exact Or.inl rfl
      | cons a pre =>
        simp only [List.cons_append, List.cons.injEq] at h
        obtain ⟨rfl, h⟩ := h
        rcases ih _ _ h with rfl | ⟨pre', c', r', rfl⟩
        · exact Or.inr ⟨[], _, _, rfl⟩
        · exact Or.inr ⟨_ :: pre', c', r', rfl⟩
    · exact absurd (mem_of_split _ _ _ _ h) (by simp)

theorem ddCleanup_no_poll (env : DdEnv) (st : DdState) (b : Bool) :
    DdEvent.poll b ∉ ddCleanup env st :=
  fun h => absurd (ddCleanup_no_transfer env st _ h) (by simp [DdEvent.isTransfer])

theorem ddCleanup_no_read (env : DdEnv) (st : DdState) (n : Int) :
    DdEvent.read n ∉ ddCleanup env st :=
  fun h => absurd (ddCleanup_no_transfer env st _ h) (by simp [DdEvent.isTransfer])

theorem ddCleanup_no_write (env : DdEnv) (st : DdState) (c r : Int) :
    DdEvent.write c r ∉ ddCleanup env st :=
  fun h => absurd (ddCleanup_no_transfer env st _ h) (by simp [DdEvent.isTransfer])

theorem ddAfterLoop_no_transfer (env : DdEnv) (st : DdState) :
    ∀ e ∈ ddAfterLoop env st, e.isTransfer = false := by
  intro e he
  unfold ddAfterLoop at he
  simp only [List.mem_append] at he
  rcases he with he | he
  · split_ifs at he
    · simp only [List.mem_singleton] at he
      subst he
      rfl
    · simp at he
  · exact ddCleanup_no_transfer env st e he

theorem ddAfterLoop_no_poll (env : DdEnv) (st : DdState) (b : Bool) :
    DdEvent.poll b ∉ ddAfterLoop env st :=
  fun h => absurd (ddAfterLoop_no_transfer env st _ h) (by simp [DdEvent.isTransfer])

theorem ddAfterLoop_no_read (env : DdEnv) (st : DdState) (n : Int) :
    DdEvent.read n ∉ ddAfterLoop env st :=
  fun h => absurd (ddAfterLoop_no_transfer env st _ h) (by simp [DdEvent.isTransfer])

theorem ddAfterLoop_no_write (env : DdEnv) (st : DdState) (c r : Int) :
    DdEvent.write c r ∉ ddAfterLoop env st :=
  fun h => absurd (ddAfterLoop_no_transfer env st _ h) (by simp [DdEvent.isTransfer])

theorem ddCopyLoop_after_interrupt (env : DdEnv) (count blockSize : Int) (fuel : Nat)
    (st : DdState) (pre post : List DdEvent)
    (h : (ddCopyLoop env count blockSize fuel st).1 = pre ++ .poll true :: post) :
    (ddCopyLoop env count blockSize fuel st).2 = true ∧
      ∃ st', post = .stderr "Interrupted\n".toList :: ddCleanup env st' := by
  induction fuel generalizing st pre with
  | zero => exact absurd (mem_of_split _ _ _ _ h) (by simp [ddCopyLoop])
  | succ fuel ih =>
    simp only [ddCopyLoop] at h ⊢
    split_ifs at h ⊢ with h1 h2 h3
    · -- interrupted in this iteration
      refine ⟨rfl, ?_⟩
      obtain ⟨pre', rfl, h4⟩ := append_split_of_not_mem [DdEvent.read (env.read st.reads)] _ _ _ _
        h (by simp)
      cases pre' with
      | nil =>
        simp only [List.nil_append, List.cons.injEq, true_and] at h4
        exact ⟨_, h4.symm⟩
      | cons a pre' =>
        simp only [List.cons_append, List.cons.injEq] at h4
        have hm := mem_of_split _ _ _ _ h4.2
        simp only [List.mem_cons] at hm
        rcases hm with hm | hm
        · exact absurd hm (by simp)
        · exact absurd hm (ddCleanup_no_poll env _ true)
    · -- the block is written
      split at h
      · have hm := mem_of_split _ _ _ _ h
        simp only [List.mem_cons, List.mem_append] at hm
        rcases hm with hm | hm | hm | hm
        · exact absurd hm (by simp)
        · exact absurd hm (by simp)
        · exact absurd hm (ddWriteLoop_no_poll _ _ _ _ true)
        · exact absurd hm (ddCleanup_no_poll env _ true)
      · have hm := mem_of_split _ _ _ _ h
        simp only [List.mem_cons] at hm
        rcases hm with hm | hm | hm
        · exact absurd hm (by simp)
        · exact absurd hm (by simp)
        · exact absurd hm (ddWriteLoop_no_poll _ _ _ _ true)
      · rename_i hst
        simp only [hst]
        obtain ⟨pre', -, h4⟩ := append_split_of_not_mem
          (DdEvent.read (env.read st.reads) :: DdEvent.poll false ::
            (ddWriteLoop env blockSize fuel (st.afterRead blockSize (env.read st.reads))).1)
          _ _ _ _ (by simpa using h)
          (by
            simp only [List.mem_cons]
            rintro (e | e | e)
            · exact absurd e (by simp)
            · exact absurd e (by simp)
            · exact ddWriteLoop_no_poll _ _ _ _ true e)
        exact ih _ _ h4
    · have hm := mem_of_split _ _ _ _ h
      simp only [List.mem_cons] at hm
      rcases hm with hm | hm
      · exact absurd hm (by simp)
      · exact absurd hm (ddAfterLoop_no_poll env _ true)
    · have hm := mem_of_split _ _ _ _ h
      exact absurd hm (ddAfterLoop_no_poll env _ true)

theorem cons_split_cases {α : Type} (a x : α) (l pre post : List α)
    (h : a :: l = pre ++ x :: post) :
    (pre = [] ∧ a = x ∧ l = post) ∨ (∃ pre', pre = a :: pre' ∧ l = pre' ++ x :: post) := by
  cases pre with
  | nil =>
    simp only [List.nil_append, List.cons.injEq] at h
    exact Or.inl ⟨rfl, h.1, h.2⟩
  | cons b pre =>
    simp only [List.cons_append, List.cons.injEq] at h
    obtain ⟨rfl, h⟩ := h
    exact Or.inr ⟨pre, rfl, h⟩

theorem ddCopyLoop_poll_after_read (env : DdEnv) (count blockSize : Int) (fuel : Nat)
    (st : DdState) (pre post : List DdEvent) (n : Int) (hn : 0 < n)
    (h : (ddCopyLoop env count blockSize fuel st).1 = pre ++ .read n :: post) :
    ∃ b post', post = .poll b :: post' := by
  induction fuel generalizing st pre with
  | zero => exact absurd (mem_of_split _ _ _ _ h) (by simp [ddCopyLoop])
  | succ fuel ih =>
    simp only [ddCopyLoop] at h
    split_ifs at h with h1 h2 h3
    · rcases cons_split_cases _ _ _ _ _ h with ⟨-, -, h4⟩ | ⟨pre', -, h4⟩
      · exact ⟨_, _, h4.symm⟩
      · have hm := mem_of_split _ _ _ _ h4
        simp only [List.mem_cons] at hm
        rcases hm with hm | hm | hm
        · exact absurd hm (by simp)
        · exact absurd hm (by simp)
        · exact absurd hm (ddCleanup_no_read env _ n)
    · split at h
      · rcases cons_split_cases _ _ _ _ _ h with ⟨-, -, h4⟩ | ⟨pre', -, h4⟩
        · exact ⟨_, _, h4.symm⟩
        · have hm := mem_of_split _ _ _ _ h4
          simp only [List.mem_cons, List.mem_append] at hm
          rcases hm with hm | hm | hm
          · exact absurd hm (by simp)
          · exact absurd hm (ddWriteLoop_no_read _ _ _ _ n)
          · exact absurd hm (ddCleanup_no_read env _ n)
      · rcases cons_split_cases _ _ _ _ _ h with ⟨-, -, h4⟩ | ⟨pre', -, h4⟩
        · exact ⟨_, _, h4.symm⟩
        · have hm := mem_of_split _ _ _ _ h4
          simp only [List.mem_cons] at hm
          rcases hm with hm | hm
          · exact absurd hm (by simp)
          · exact absurd hm (ddWriteLoop_no_read _ _ _ _ n)
      · rcases cons_split_cases _ _ _ _ _ h with ⟨-, -, h4⟩ | ⟨pre', -, h4⟩
        · exact ⟨_, _, h4.symm⟩
        · obtain ⟨pre'', -, h5⟩ := append_split_of_not_mem
            (DdEvent.poll false ::
              (ddWriteLoop env blockSize fuel (st.afterRead blockSize (env.read st.reads))).1)
            _ _ _ _ (by simpa using h4)
            (by
              simp only [List.mem_cons]
              rintro (e | e)
              · exact absurd e (by simp)
              · exact ddWriteLoop_no_read _ _ _ _ n e)
          exact ih _ _ h5
    · rcases cons_split_cases _ _ _ _ _ h with ⟨-, h4, -⟩ | ⟨pre', -, h4⟩
      · simp only [DdEvent.read.injEq] at h4
        omega
      · exact absurd (mem_of_split _ _ _ _ h4) (ddAfterLoop_no_read env _ n)
    · exact absurd (mem_of_split _ _ _ _ h) (ddAfterLoop_no_read env _ n)

theorem ddCopyLoop_poll_before_write (env : DdEnv) (count blockSize : Int) (fuel : Nat)
    (st : DdState) (pre post : List DdEvent) (c r : Int)
    (h : (ddCopyLoop env count blockSize fuel st).1 = pre ++ .write c r :: post) :
    ∃ pre' e, pre = pre' ++ [e] ∧ e.allowsWrite := by
  induction fuel generalizing st pre with
  | zero => exact absurd (mem_of_split _ _ _ _ h) (by simp [ddCopyLoop])
  | succ fuel ih =>
    have hinner : ∀ (X pre2 : List DdEvent),
        (ddWriteLoop env blockSize fuel (st.afterRead blockSize (env.read st.reads))).1 ++ X
          = pre2 ++ .write c r :: post →
        (∀ p, X = p ++ .write c r :: post → ∃ pre' e, p = pre' ++ [e] ∧ e.allowsWrite) →
        ∃ pre' e, DdEvent.read (env.read st.reads) :: DdEvent.poll false :: pre2 = pre' ++ [e] ∧
          e.allowsWrite := by
      intro X pre2 hx hX
      rcases append_split_cases _ _ _ _ _ hx with ⟨q, h6, -⟩ | ⟨p, rfl, h6⟩
      · rcases ddWriteLoop_before_write _ _ _ _ _ _ _ _ h6 with rfl | ⟨p', c', r', rfl⟩
        · exact ⟨[DdEvent.read (env.read st.reads)], _, rfl, Or.inl rfl⟩
        · exact ⟨DdEvent.read (env.read st.reads) :: DdEvent.poll false :: p', _, rfl,
            Or.inr ⟨_, _, rfl⟩⟩
      · obtain ⟨p', e, rfl, he⟩ := hX p h6
        exact ⟨DdEvent.read (env.read st.reads) :: DdEvent.poll false ::
          ((ddWriteLoop env blockSize fuel
            (st.afterRead blockSize (env.read st.reads))).1 ++ p'), e, by simp, he⟩
    have hstrip : ∀ (L : List DdEvent),
        DdEvent.read (env.read st.reads) :: DdEvent.poll false :: L = pre ++ .write c r :: post →
        ∃ pre2, pre = DdEvent.read (env.read st.reads) :: DdEvent.poll false :: pre2 ∧
          L = pre2 ++ .write c r :: post := by
      intro L hL
      rcases cons_split_cases _ _ _ _ _ hL with ⟨-, h4, -⟩ | ⟨pre1, rfl, h4⟩
      · exact absurd h4 (by simp)
      · rcases cons_split_cases _ _ _ _ _ h4 with ⟨-, h5, -⟩ | ⟨pre2, rfl, h5⟩
        · exact absurd h5 (by simp)
        · exact ⟨pre2, rfl, h5⟩
    simp only [ddCopyLoop] at h
    split_ifs at h with h1 h2 h3
    · have hm := mem_of_split _ _ _ _ h
      simp only [List.mem_cons] at hm
      rcases hm with hm | hm | hm | hm
      · exact absurd hm (by simp)
      · exact absurd hm (by simp)
      · exact absurd hm (by simp)
      · exact absurd hm (ddCleanup_no_write env _ c r)
    · split at h
      · obtain ⟨pre2, rfl, h5⟩ := hstrip _ h
        exact hinner _ _ h5 (fun p hp => absurd (mem_of_split _ _ _ _ hp)
          (ddCleanup_no_write env _ c r))
      · obtain ⟨pre2, rfl, h5⟩ := hstrip _ h
        exact hinner [] _ (by simpa using h5) (fun p hp => absurd (mem_of_split _ _ _ _ hp)
          (by simp))
      · obtain ⟨pre2, rfl, h5⟩ := hstrip _ (by simpa using h)
        exact hinner _ _ h5 (fun p hp => ih _ _ hp)
    · rcases cons_split_cases _ _ _ _ _ h with ⟨-, h4, -⟩ | ⟨pre', -, h4⟩
      · exact absurd h4 (by simp)
      · exact absurd (mem_of_split _ _ _ _ h4) (ddAfterLoop_no_write env _ c r)
    · exact absurd (mem_of_split _ _ _ _ h) (ddAfterLoop_no_write env _ c r)

/-- Claim C5: do_dd tests the interrupt flag on every iteration of its copy
loop, after the read and before any write. Every read that delivers data is
followed at once by the test; a write comes only after a test that found
the flag clear, or after an earlier write of the same block; and once the
test finds the flag set, do_dd reports it, closes both files and prints the
record counts, with no further read or write and nothing done to what
earlier iterations wrote. -/
theorem do_dd_copy_polls_interrupt (env : DdEnv) (count blockSize : Int) (fuel : Nat) :
    (∀ pre post n, (do_dd_copy env count blockSize fuel).1 = pre ++ .read n :: post → 0 < n →
      ∃ b post', post = .poll b :: post') ∧
    (∀ pre post c r, (do_dd_copy env count blockSize fuel).1 = pre ++ .write c r :: post →
      ∃ pre' e, pre = pre' ++ [e] ∧ (e = .poll false ∨ ∃ c' r', e = .write c' r')) ∧
    (∀ pre post, (do_dd_copy env count blockSize fuel).1 = pre ++ .poll true :: post →
      (do_dd_copy env count blockSize fuel).2 = true ∧
      ∃ inFull inPart outFull outPart,
        post = .stderr "Interrupted\n".toList :: .closeIn :: .closeOut ::
          ((if !env.closeOutOk then [.perrorOut] else []) ++
            [.recordsIn inFull inPart, .recordsOut outFull outPart])) := by
  refine ⟨?_, ?_, ?_⟩
  · intro pre post n h hn
    exact ddCopyLoop_poll_after_read env count blockSize fuel _ pre post n hn h
  · intro pre post c r h
    exact ddCopyLoop_poll_before_write env count blockSize fuel _ pre post c r h
  · intro pre post h
    obtain ⟨h1, st', h2⟩ := ddCopyLoop_after_interrupt env count blockSize fuel _ pre post h
    refine ⟨h1, st'.inFull, st'.inPartial, st'.outFull, st'.outPartial, ?_⟩
    rw [h2]
    simp [ddCleanup]

/-- Witness for C5: three blocks to read and the flag found set at the
second test; one block is written, the second is read and dropped, the
third is never read. -/
theorem do_dd_copy_polls_interrupt_witness :
    do_dd_copy ddEnvExample (-1) 512 10
      = ([.read 512, .poll false, .write 512 512, .read 512, .poll true,
          .stderr "Interrupted\n".toList, .closeIn, .closeOut,
          .recordsIn 2 0, .recordsOut 1 0], true) ∧
    ∃ inFull inPart outFull outPart,
      [DdEvent.stderr "Interrupted\n".toList, .closeIn, .closeOut,
          .recordsIn 2 0, .recordsOut 1 0]
        = .stderr "Interrupted\n".toList :: .closeIn :: .closeOut ::
          ((if !ddEnvExample.closeOutOk then [.perrorOut] else []) ++
            [.recordsIn inFull inPart, .recordsOut outFull outPart]) :=
  ⟨by decide,
   ((do_dd_copy_polls_interrupt ddEnvExample (-1) 512 10).2.2
      [.read 512, .poll false, .write 512 512, .read 512]
      [.stderr "Interrupted\n".toList, .closeIn, .closeOut, .recordsIn 2 0, .recordsOut 1 0]
      (by decide)).2⟩

theorem Outcome.trace_after {ε : Type} (evs : List ε) (o : Outcome ε) :
    (o.after evs).trace = evs ++ o.trace := by
  cases o <;> rfl

theorem cpBody_no_poll (env : MoveEnv) (lastArg : List Char) (dirFlag : Bool) (k : Nat)
    (srcName : List Char) (b : Bool) : MoveEvent.poll b ∉ cpBody env lastArg dirFlag k srcName := by
  simp [cpBody]

theorem mvBody_no_poll (env : MoveEnv) (lastArg : List Char) (dirFlag : Bool) (k : Nat)
    (srcName : List Char) (b : Bool) : MoveEvent.poll b ∉ mvBody env lastArg dirFlag k srcName := by
  unfold mvBody
  cases env.accessOk k srcName
  · simp
  · simp only [Bool.not_true, Bool.false_eq_true, if_false]
    split
    · simp
    · split_ifs <;> simp

theorem sourceLoop_of_flag (intFlag : Nat → Bool) (body : Nat → List Char → List MoveEvent)
    (argv : List (List Char)) (argc : Int) (k : Nat) (h : intFlag k = true) :
    sourceLoop intFlag body argv argc k = .returned [.poll true] := by
  match argv with
  | [] => simp [sourceLoop, h]
  | [_] => simp [sourceLoop, h]
  | _ :: _ :: _ => simp [sourceLoop, h]

theorem sourceLoop_head_of_not_flag (intFlag : Nat → Bool)
    (body : Nat → List Char → List MoveEvent)
    (argv : List (List Char)) (argc : Int) (k : Nat) (h : intFlag k = false) :
    ∃ rest, (sourceLoop intFlag body argv argc k).trace = .poll false :: rest := by
  match argv with
  | [] =>
    simp only [sourceLoop, h, Bool.false_eq_true, if_false]
    split_ifs <;> exact ⟨_, rfl⟩
  | [_] =>
    simp only [sourceLoop, h, Bool.false_eq_true, if_false]
    split_ifs <;> exact ⟨_, rfl⟩
  | _ :: _ :: _ =>
    simp only [sourceLoop, h, Bool.false_eq_true, if_false]
    split_ifs
    · rw [Outcome.trace_after]; exact ⟨_, rfl⟩
    · exact ⟨_, rfl⟩

theorem sourceLoop_stops (intFlag : Nat → Bool) (body : Nat → List Char → List MoveEvent)
    (hbody : ∀ k s, MoveEvent.poll true ∉ body k s)
    (argv : List (List Char)) (argc : Int) (k : Nat) (pre post : List MoveEvent)
    (h : (sourceLoop intFlag body argv argc k).trace = pre ++ .poll true :: post) :
    post = [] := by
  have hsingle : ∀ (b : Bool) (pre post : List MoveEvent),
      [MoveEvent.poll b] = pre ++ MoveEvent.poll true :: post → post = [] := by
    intro b pre post h
    cases pre with
    | nil => simp at h; exact h.2
    | cons a pre => simp at h
  induction argv generalizing argc k pre with
  | nil =>
    simp only [sourceLoop] at h
    split_ifs at h <;> exact hsingle _ _ _ h
  | cons a rest ih =>
    cases rest with
    | nil =>
      simp only [sourceLoop] at h
      split_ifs at h <;> exact hsingle _ _ _ h
    | cons srcName rest =>
      simp only [sourceLoop] at h
      split_ifs at h with h1 h2
      · exact hsingle _ _ _ h
      · rw [Outcome.trace_after] at h
        obtain ⟨pre', -, h3⟩ := append_split_of_not_mem _ _ _ _ _ h
          (by simp only [List.mem_cons]; rintro (e | e)
              · exact absurd e (by simp)
              · exact hbody _ _ e)
        exact ih _ _ _ h3
      · exact hsingle _ _ _ h

theorem sourceLoop_prefix (intFlag : Nat → Bool) (body : Nat → List Char → List MoveEvent)
    (hbody : ∀ k s, MoveEvent.poll true ∉ body k s)
    (argv : List (List Char)) (argc : Int) (k : Nat) (pre : List MoveEvent)
    (h : (sourceLoop intFlag body argv argc k).trace = pre ++ [.poll true]) :
    ∃ rest, (sourceLoop (fun _ => false) body argv argc k).trace = pre ++ .poll false :: rest := by
  have hsingle : ∀ (pre : List MoveEvent),
      [MoveEvent.poll true] = pre ++ [MoveEvent.poll true] → pre = [] := by
    intro pre h
    cases pre with
    | nil => rfl
    | cons a pre => simp at h
  have hfalse : ∀ (pre : List MoveEvent),
      ¬ ([MoveEvent.poll false] = pre ++ [MoveEvent.poll true]) := by
    intro pre h
    cases pre with
    | nil => simp at h
    | cons a pre => simp at h
  induction argv generalizing argc k pre with
  | nil =>
    simp only [sourceLoop] at h
    split_ifs at h
    · rw [hsingle _ h]
      exact sourceLoop_head_of_not_flag _ _ _ _ _ rfl
    · exact absurd h (hfalse _)
    · exact absurd h (hfalse _)
  | cons a rest ih =>
    cases rest with
    | nil =>
      simp only [sourceLoop] at h
      split_ifs at h
      · rw [hsingle _ h]
        exact sourceLoop_head_of_not_flag _ _ _ _ _ rfl
      · exact absurd h (hfalse _)
      · exact absurd h (hfalse _)
    | cons srcName rest =>
      simp only [sourceLoop] at h
      split_ifs at h with h1 h2
      · rw [hsingle _ h]
        exact sourceLoop_head_of_not_flag _ _ _ _ _ rfl
      · rw [Outcome.trace_after] at h
        obtain ⟨pre', rfl, h3⟩ := append_split_of_not_mem _ _ _ _ _ h
          (by simp only [List.mem_cons]; rintro (e | e)
              · exact absurd e (by simp)
              · exact hbody _ _ e)
        obtain ⟨rest', hr⟩ := ih _ _ _ h3
        refine ⟨rest', ?_⟩
        simp only [sourceLoop, Bool.false_eq_true, if_false, if_pos h2]
        rw [Outcome.trace_after, hr]
        simp
      · exact absurd h (hfalse _)

theorem guarded_loop_stops (intFlag : Nat → Bool) (body : Nat → List Char → List MoveEvent)
    (hbody : ∀ k s, MoveEvent.poll true ∉ body k s)
    (argc : Int) (argv : List (List Char)) (lastArg : List Char) (pre post : List MoveEvent)
    (h : ((sourceLoop intFlag body argv argc 0).after [.isDirectory lastArg]).trace
      = pre ++ .poll true :: post) : post = [] := by
  rw [Outcome.trace_after] at h
  obtain ⟨pre', -, h3⟩ := append_split_of_not_mem _ _ _ _ _ h (by simp)
  exact sourceLoop_stops intFlag body hbody _ _ _ _ _ h3

theorem guarded_loop_prefix (intFlag : Nat → Bool) (body : Nat → List Char → List MoveEvent)
    (hbody : ∀ k s, MoveEvent.poll true ∉ body k s)
    (argc : Int) (argv : List (List Char)) (lastArg : List Char) (pre : List MoveEvent)
    (h : ((sourceLoop intFlag body argv argc 0).after [.isDirectory lastArg]).trace
      = pre ++ [.poll true]) :
    ∃ rest, ((sourceLoop (fun _ => false) body argv argc 0).after [.isDirectory lastArg]).trace
      = pre ++ .poll false :: rest := by
  rw [Outcome.trace_after] at h
  obtain ⟨pre', rfl, h3⟩ := append_split_of_not_mem _ _ _ _ _ h (by simp)
  obtain ⟨rest, hr⟩ := sourceLoop_prefix intFlag body hbody _ _ _ _ h3
  exact ⟨rest, by rw [Outcome.trace_after, hr]; simp⟩

theorem sourceLoop_step (intFlag : Nat → Bool) (body : Nat → List Char → List MoveEvent)
    (a srcName : List Char) (rest : List (List Char)) (argc : Int) (k : Nat) :
    sourceLoop intFlag body (a :: srcName :: rest) argc k
      = if intFlag k then .returned [.poll true]
        else if argc > 2 then
          (sourceLoop intFlag body (srcName :: rest) (argc - 1) (k + 1)).after
            (.poll false :: body k srcName)
        else .returned [.poll false] := by
  rw [sourceLoop]

theorem sourceLoop_eq (intFlag : Nat → Bool) (body : Nat → List Char → List MoveEvent)
    (a : List Char) (rest : List (List Char)) (k : Nat) :
    sourceLoop intFlag body (a :: rest) (rest.length + 1) k
      = .returned (guardedRun intFlag body k rest.dropLast) := by
  induction rest generalizing a k with
  | nil =>
    simp only [sourceLoop, List.dropLast, guardedRun]
    cases intFlag k <;> simp
  | cons b rest ih =>
    cases rest with
    | nil =>
      simp only [sourceLoop, List.dropLast, guardedRun]
      cases intFlag k <;> simp
    | cons c rest =>
      have hgt : (((b :: c :: rest).length : Nat) : Int) + 1 > 2 := by
        simp only [List.length_cons]; push_cast; omega
      have e : (((b :: c :: rest).length : Nat) : Int) + 1 - 1
          = (((c :: rest).length : Nat) : Int) + 1 := by
        simp only [List.length_cons]; push_cast; omega
      have hd : (b :: c :: rest).dropLast = b :: (c :: rest).dropLast := rfl
      rw [sourceLoop_step, if_pos hgt, e, ih, hd, guardedRun]
      cases intFlag k <;> rfl

theorem sourceLoop_action_in_body (intFlag : Nat → Bool)
    (body : Nat → List Char → List MoveEvent)
    (argv : List (List Char)) (argc : Int) (k : Nat) (pre post : List MoveEvent) (e : MoveEvent)
    (he : ∀ b, e ≠ .poll b)
    (h : (sourceLoop intFlag body argv argc k).trace = pre ++ e :: post) :
    ∃ p k' s q r, pre = p ++ .poll false :: q ∧ body k' s = q ++ e :: r := by
  have hsingle : ∀ (b : Bool) (pre : List MoveEvent),
      ¬ ([MoveEvent.poll b] = pre ++ e :: post) := by
    intro b pre h
    have hm := mem_of_split _ _ _ _ h
    simp only [List.mem_singleton] at hm
    exact he b hm
  induction argv generalizing argc k pre with
  | nil =>
    simp only [sourceLoop] at h
    split_ifs at h <;> exact absurd h (hsingle _ _)
  | cons a rest ih =>
    cases rest with
    | nil =>
      simp only [sourceLoop] at h
      split_ifs at h <;> exact absurd h (hsingle _ _)
    | cons srcName rest =>
      simp only [sourceLoop] at h
      split_ifs at h with h1 h2
      · exact absurd h (hsingle _ _)
      · rw [Outcome.trace_after] at h
        rcases cons_split_cases _ _ _ _ _ h with ⟨-, h3, -⟩ | ⟨pre1, rfl, h3⟩
        · exact absurd h3.symm (he false)
        · rcases append_split_cases _ _ _ _ _ h3 with ⟨q', h4, -⟩ | ⟨p', rfl, h4⟩
          · exact ⟨[], k, srcName, pre1, q', rfl, h4⟩
          · obtain ⟨p, k', s, q, r, rfl, h5⟩ := ih _ _ _ h4
            exact ⟨MoveEvent.poll false :: (body k srcName ++ p), k', s, q, r, by simp, h5⟩
      · exact absurd h (hsingle _ _)

theorem guarded_loop_action (intFlag : Nat → Bool) (body : Nat → List Char → List MoveEvent)
    (hbody : ∀ k s, MoveEvent.poll true ∉ body k s)
    (argc : Int) (argv : List (List Char)) (lastArg : List Char) (pre post : List MoveEvent)
    (e : MoveEvent) (he : ∀ b, e ≠ .poll b) (he2 : e ≠ .isDirectory lastArg)
    (h : ((sourceLoop intFlag body argv argc 0).after [.isDirectory lastArg]).trace
      = pre ++ e :: post) :
    ∃ p k' s q r, pre = p ++ .poll false :: q ∧ body k' s = q ++ e :: r := by
  have _ := hbody
  rw [Outcome.trace_after] at h
  rcases cons_split_cases _ _ _ _ _ h with ⟨-, h3, -⟩ | ⟨pre1, rfl, h3⟩
  · exact absurd h3.symm he2
  · obtain ⟨p, k', s, q, r, rfl, h5⟩ := sourceLoop_action_in_body intFlag body _ _ _ _ _ e he h3
    exact ⟨MoveEvent.isDirectory lastArg :: p, k', s, q, r, by simp, h5⟩

theorem mvBody_shape (env : MoveEnv) (lastArg : List Char) (dirFlag : Bool) (k : Nat)
    (s : List Char) :
    ∃ d, mvBody env lastArg dirFlag k s = [.access s, .perror s] ∨
      mvBody env lastArg dirFlag k s = [.access s, .rename s d] ∨
      mvBody env lastArg dirFlag k s = [.access s, .rename s d, .perror d] ∨
      mvBody env lastArg dirFlag k s = [.access s, .rename s d, .copyFile s d true] ∨
      mvBody env lastArg dirFlag k s
        = [.access s, .rename s d, .copyFile s d true, .unlink s, .perror s] ∨
      mvBody env lastArg dirFlag k s = [.access s, .rename s d, .copyFile s d true, .unlink s] := by
  refine ⟨if dirFlag then env.buildName lastArg s else lastArg, ?_⟩
  unfold mvBody
  cases env.accessOk k s
  · simp
  · simp only [Bool.not_true, Bool.false_eq_true, if_false]
    split
    · simp
    · split_ifs <;> simp

theorem mvBody_before (env : MoveEnv) (lastArg : List Char) (dirFlag : Bool) (k : Nat)
    (s : List Char) (q r : List MoveEvent) (e : MoveEvent)
    (h : mvBody env lastArg dirFlag k s = q ++ e :: r) :
    (∀ s1, e = .access s1 → q = []) ∧
    (∀ s1 d1, e = .rename s1 d1 → q = [.access s1]) ∧
    (∀ s1 d1 m, e = .copyFile s1 d1 m → q = [.access s1, .rename s1 d1]) ∧
    (∀ s1, e = .unlink s1 → ∃ d, q = [.access s1, .rename s1 d, .copyFile s1 d true]) := by
  obtain ⟨d, hs⟩ := mvBody_shape env lastArg dirFlag k s
  rw [h] at hs
  rcases hs with hs | hs | hs | hs | hs | hs <;>
    (rcases q with _ | ⟨a1, _ | ⟨a2, _ | ⟨a3, _ | ⟨a4, _ | ⟨a5, q⟩⟩⟩⟩⟩ <;>
      simp at hs <;>
      (refine ⟨?_, ?_, ?_, ?_⟩ <;> intros <;> simp_all))

theorem do_cp_do_mv_stops (env : MoveEnv) (intFlag : Nat → Bool) (argc : Int)
    (argv : List (List Char)) :
    (∀ pre post, (do_cp env intFlag argc argv).trace = pre ++ .poll true :: post → post = []) ∧
    (∀ pre post, (do_mv env intFlag argc argv).trace = pre ++ .poll true :: post → post = []) ∧
    (∀ lastArg, lastArgOf argc argv = some lastArg →
      ¬ (argc > 3 ∧ env.isDirectory lastArg = false) → intFlag 0 = true →
      do_cp env intFlag argc argv = .returned [.isDirectory lastArg, .poll true] ∧
      do_mv env intFlag argc argv = .returned [.isDirectory lastArg, .poll true]) ∧
    (∀ pre, (do_cp env intFlag argc argv).trace = pre ++ [.poll true] →
      ∃ rest, (do_cp env (fun _ => false) argc argv).trace = pre ++ .poll false :: rest) ∧
    (∀ pre, (do_mv env intFlag argc argv).trace = pre ++ [.poll true] →
      ∃ rest, (do_mv env (fun _ => false) argc argv).trace = pre ++ .poll false :: rest) := by
  have hnil : ∀ (pre post : List MoveEvent), ¬ (([] : List MoveEvent) = pre ++ .poll true :: post) := by
    intro pre post h
    cases pre <;> simp at h
  have hguard : ∀ (lastArg : List Char) (pre post : List MoveEvent),
      ¬ ([MoveEvent.isDirectory lastArg, .stderr (lastArg ++ ": not a directory\n".toList)]
          = pre ++ .poll true :: post) := by
    intro lastArg pre post h
    have : MoveEvent.poll true ∈
        [MoveEvent.isDirectory lastArg, .stderr (lastArg ++ ": not a directory\n".toList)] := by
      rw [h]; simp
    simp at this
  refine ⟨?_, ?_, ?_, ?_, ?_⟩
  · intro pre post h
    unfold do_cp at h
    cases hl : lastArgOf argc argv with
    | none => rw [hl] at h; exact absurd h (hnil _ _)
    | some lastArg =>
      rw [hl] at h
      simp only at h
      split_ifs at h
      · exact absurd h (hguard _ _ _)
      · exact guarded_loop_stops intFlag _ (fun k s => cpBody_no_poll env _ _ k s true) _ _ _ _ _ h
  · intro pre post h
    unfold do_mv at h
    cases hl : lastArgOf argc argv with
    | none => rw [hl] at h; exact absurd h (hnil _ _)
    | some lastArg =>
      rw [hl] at h
      simp only at h
      split_ifs at h
      · exact absurd h (hguard _ _ _)
      · exact guarded_loop_stops intFlag _ (fun k s => mvBody_no_poll env _ _ k s true) _ _ _ _ _ h
  · intro lastArg hl hdest hflag
    have hdest' : ¬ (argc > 3 ∧ (!env.isDirectory lastArg) = true) := by
      simpa using hdest
    constructor
    · unfold do_cp
      rw [hl]
      simp only
      rw [if_neg hdest', sourceLoop_of_flag _ _ _ _ _ hflag]
      rfl
    · unfold do_mv
      rw [hl]
      simp only
      rw [if_neg hdest', sourceLoop_of_flag _ _ _ _ _ hflag]
      rfl
  · intro pre h
    unfold do_cp at h ⊢
    cases hl : lastArgOf argc argv with
    | none => rw [hl] at h; exact absurd h (hnil _ _)
    | some lastArg =>
      rw [hl] at h
      simp only at h ⊢
      split_ifs at h with hg
      · exact absurd h (hguard _ _ _)
      · rw [if_neg hg]
        exact guarded_loop_prefix intFlag _ (fun k s => cpBody_no_poll env _ _ k s true) _ _ _ _ h
  · intro pre h
    unfold do_mv at h ⊢
    cases hl : lastArgOf argc argv with
    | none => rw [hl] at h; exact absurd h (hnil _ _)
    | some lastArg =>
      rw [hl] at h
      simp only at h ⊢
      split_ifs at h with hg
      · exact absurd h (hguard _ _ _)
      · rw [if_neg hg]
        exact guarded_loop_prefix intFlag _ (fun k s => mvBody_no_poll env _ _ k s true) _ _ _ _ h

theorem do_cp_action (env : MoveEnv) (intFlag : Nat → Bool) (argc : Int)
    (argv : List (List Char)) (pre post : List MoveEvent) (e : MoveEvent)
    (he : ∀ b, e ≠ .poll b) (he2 : ∀ x, e ≠ .isDirectory x) (he3 : ∀ x, e ≠ .stderr x)
    (h : (do_cp env intFlag argc argv).trace = pre ++ e :: post) :
    ∃ p lastArg dirFlag k s q r, pre = p ++ .poll false :: q ∧
      cpBody env lastArg dirFlag k s = q ++ e :: r := by
  unfold do_cp at h
  cases hl : lastArgOf argc argv with
  | none =>
    rw [hl] at h
    exact absurd (mem_of_split _ _ _ _ h) (by simp [Outcome.trace])
  | some lastArg =>
    rw [hl] at h
    simp only at h
    split_ifs at h
    · have hm := mem_of_split _ _ _ _ h
      simp only [Outcome.trace, List.mem_cons, List.mem_singleton, List.not_mem_nil,
        or_false] at hm
      rcases hm with hm | hm
      · exact absurd hm (he2 _)
      · exact absurd hm (he3 _)
    · obtain ⟨p, k, s, q, r, h1, h2⟩ := guarded_loop_action intFlag _
        (fun k s => cpBody_no_poll env _ _ k s true) _ _ _ _ _ e he (he2 _) h
      exact ⟨p, _, _, k, s, q, r, h1, h2⟩

theorem do_mv_action (env : MoveEnv) (intFlag : Nat → Bool) (argc : Int)
    (argv : List (List Char)) (pre post : List MoveEvent) (e : MoveEvent)
    (he : ∀ b, e ≠ .poll b) (he2 : ∀ x, e ≠ .isDirectory x) (he3 : ∀ x, e ≠ .stderr x)
    (h : (do_mv env intFlag argc argv).trace = pre ++ e :: post) :
    ∃ p lastArg dirFlag k s q r, pre = p ++ .poll false :: q ∧
      mvBody env lastArg dirFlag k s = q ++ e :: r := by
  unfold do_mv at h
  cases hl : lastArgOf argc argv with
  | none =>
    rw [hl] at h
    exact absurd (mem_of_split _ _ _ _ h) (by simp [Outcome.trace])
  | some lastArg =>
    rw [hl] at h
    simp only at h
    split_ifs at h
    · have hm := mem_of_split _ _ _ _ h
      simp only [Outcome.trace, List.mem_cons, List.mem_singleton, List.not_mem_nil,
        or_false] at hm
      rcases hm with hm | hm
      · exact absurd hm (he2 _)
      · exact absurd hm (he3 _)
    · obtain ⟨p, k, s, q, r, h1, h2⟩ := guarded_loop_action intFlag _
        (fun k s => mvBody_no_poll env _ _ k s true) _ _ _ _ _ e he (he2 _) h
      exact ⟨p, _, _, k, s, q, r, h1, h2⟩

theorem lastArgOf_some (argc : Int) (argv : List (List Char)) (lastArg : List Char)
    (hlen : (argv.length : Int) = argc) (hl : lastArgOf argc argv = some lastArg) :
    ∃ a rest, argv = a :: rest ∧ argc = (rest.length : Int) + 1 := by
  cases argv with
  | nil =>
    simp only [List.length_nil, Nat.cast_zero] at hlen
    subst hlen
    simp [lastArgOf] at hl
  | cons a rest =>
    refine ⟨a, rest, rfl, ?_⟩
    rw [← hlen]
    simp

/-- Claim C6: do_cp and do_mv test the interrupt flag before each source
name. With the destination check passed, what each does is exactly: test
the flag, handle the first source, test the flag, handle the next source,
and so on, stopping at the first test that finds the flag set. So each
copyFile of do_cp, and each access, rename, copyFile and unlink of do_mv,
belongs to a source whose handling follows at once a test that found the
flag clear. Once a test finds the flag set nothing more happens: no further
source is copied, renamed or unlinked. With the flag set on entry do_cp
calls copyFile zero times and do_mv calls rename, copyFile and unlink zero
times. What was done for the sources handled before is what a run that is
not interrupted does for them. -/
theorem do_cp_do_mv_stop_on_interrupt (env : MoveEnv) (intFlag : Nat → Bool) (argc : Int)
    (argv : List (List Char)) :
    (∀ lastArg, (argv.length : Int) = argc → lastArgOf argc argv = some lastArg →
      ¬ (argc > 3 ∧ env.isDirectory lastArg = false) →
      do_cp env intFlag argc argv
        = .returned (.isDirectory lastArg ::
            guardedRun intFlag (cpBody env lastArg (env.isDirectory lastArg)) 0
              (sourceNames argv)) ∧
      do_mv env intFlag argc argv
        = .returned (.isDirectory lastArg ::
            guardedRun intFlag (mvBody env lastArg (env.isDirectory lastArg)) 0
              (sourceNames argv))) ∧
    (∀ pre post s d m, (do_cp env intFlag argc argv).trace = pre ++ .copyFile s d m :: post →
      ∃ pre', pre = pre' ++ [.poll false]) ∧
    (∀ pre post s, (do_mv env intFlag argc argv).trace = pre ++ .access s :: post →
      ∃ pre', pre = pre' ++ [.poll false]) ∧
    (∀ pre post s d, (do_mv env intFlag argc argv).trace = pre ++ .rename s d :: post →
      ∃ pre', pre = pre' ++ [.poll false, .access s]) ∧
    (∀ pre post s d m, (do_mv env intFlag argc argv).trace = pre ++ .copyFile s d m :: post →
      ∃ pre', pre = pre' ++ [.poll false, .access s, .rename s d]) ∧
    (∀ pre post s, (do_mv env intFlag argc argv).trace = pre ++ .unlink s :: post →
      ∃ pre' d, pre = pre' ++ [.poll false, .access s, .rename s d, .copyFile s d true]) ∧
    (∀ pre post, (do_cp env intFlag argc argv).trace = pre ++ .poll true :: post → post = []) ∧
    (∀ pre post, (do_mv env intFlag argc argv).trace = pre ++ .poll true :: post → post = []) ∧
    (∀ lastArg, lastArgOf argc argv = some lastArg →
      ¬ (argc > 3 ∧ env.isDirectory lastArg = false) → intFlag 0 = true →
      do_cp env intFlag argc argv = .returned [.isDirectory lastArg, .poll true] ∧
      do_mv env intFlag argc argv = .returned [.isDirectory lastArg, .poll true]) ∧
    (∀ pre, (do_cp env intFlag argc argv).trace = pre ++ [.poll true] →
      ∃ rest, (do_cp env (fun _ => false) argc argv).trace = pre ++ .poll false :: rest) ∧
    (∀ pre, (do_mv env intFlag argc argv).trace = pre ++ [.poll true] →
      ∃ rest, (do_mv env (fun _ => false) argc argv).trace = pre ++ .poll false :: rest) := by
  obtain ⟨h1, h2, h3, h4, h5⟩ := do_cp_do_mv_stops env intFlag argc argv
  refine ⟨?_, ?_, ?_, ?_, ?_, ?_, h1, h2, h3, h4, h5⟩
  · intro lastArg hlen hl hdest
    obtain ⟨a, rest, rfl, rfl⟩ := lastArgOf_some argc argv lastArg hlen hl
    have hdest' : ¬ ((rest.length : Int) + 1 > 3 ∧ (!env.isDirectory lastArg) = true) := by
      simpa using hdest
    constructor
    · unfold do_cp
      rw [hl]
      simp only
      rw [if_neg hdest', sourceLoop_eq]
      rfl
    · unfold do_mv
      rw [hl]
      simp only
      rw [if_neg hdest', sourceLoop_eq]
      rfl
  · intro pre post s d m h
    obtain ⟨p, lastArg, dirFlag, k, s', q, r, rfl, hb⟩ := do_cp_action env intFlag argc argv
      pre post _ (by simp) (by simp) (by simp) h
    refine ⟨p, ?_⟩
    unfold cpBody at hb
    cases q with
    | nil => rfl
    | cons a q => simp at hb
  · intro pre post s h
    obtain ⟨p, lastArg, dirFlag, k, s', q, r, rfl, hb⟩ := do_mv_action env intFlag argc argv
      pre post _ (by simp) (by simp) (by simp) h
    rw [(mvBody_before env lastArg dirFlag k s' q r _ hb).1 s rfl]
    exact ⟨p, rfl⟩
  · intro pre post s d h
    obtain ⟨p, lastArg, dirFlag, k, s', q, r, rfl, hb⟩ := do_mv_action env intFlag argc argv
      pre post _ (by simp) (by simp) (by simp) h
    rw [(mvBody_before env lastArg dirFlag k s' q r _ hb).2.1 s d rfl]
    exact ⟨p, rfl⟩
  · intro pre post s d m h
    obtain ⟨p, lastArg, dirFlag, k, s', q, r, rfl, hb⟩ := do_mv_action env intFlag argc argv
      pre post _ (by simp) (by simp) (by simp) h
    rw [(mvBody_before env lastArg dirFlag k s' q r _ hb).2.2.1 s d m rfl]
    exact ⟨p, rfl⟩
  · intro pre post s h
    obtain ⟨p, lastArg, dirFlag, k, s', q, r, rfl, hb⟩ := do_mv_action env intFlag argc argv
      pre post _ (by simp) (by simp) (by simp) h
    obtain ⟨d, hq⟩ := (mvBody_before env lastArg dirFlag k s' q r _ hb).2.2.2 s rfl
    rw [hq]
    exact ⟨p, d, rfl⟩

/-- Witness for C6: cp a b d and mv a b d, d a directory. With the flag
found set at the second test, a is handled and b is not; with the flag set
on entry nothing is handled. -/
theorem do_cp_do_mv_stop_on_interrupt_witness :
    (do_cp moveEnvExample (fun k => decide (k = 1)) 4 [['c', 'p'], ['a'], ['b'], ['d']]
        = .returned [.isDirectory ['d'], .poll false, .copyFile ['a'] ['d', '/', 'a'] false,
            .poll true] ∧
      do_mv moveEnvExample (fun k => decide (k = 1)) 4 [['m', 'v'], ['a'], ['b'], ['d']]
        = .returned [.isDirectory ['d'], .poll false, .access ['a'],
            .rename ['a'] ['d', '/', 'a'], .copyFile ['a'] ['d', '/', 'a'] true, .unlink ['a'],
            .poll true]) ∧
    (do_cp moveEnvExample (fun _ => true) 4 [['c', 'p'], ['a'], ['b'], ['d']]
        = .returned [.isDirectory ['d'], .poll true] ∧
      do_mv moveEnvExample (fun _ => true) 4 [['c', 'p'], ['a'], ['b'], ['d']]
        = .returned [.isDirectory ['d'], .poll true]) ∧
    ∃ rest, (do_cp moveEnvExample (fun _ => false) 4 [['c', 'p'], ['a'], ['b'], ['d']]).trace
      = [.isDirectory ['d'], .poll false, .copyFile ['a'] ['d', '/', 'a'] false] ++
          .poll false :: rest :=
  ⟨⟨((do_cp_do_mv_stop_on_interrupt moveEnvExample (fun k => decide (k = 1)) 4
        [['c', 'p'], ['a'], ['b'], ['d']]).1 ['d'] (by decide) (by decide) (by decide)).1.trans
      (by decide),
    ((do_cp_do_mv_stop_on_interrupt moveEnvExample (fun k => decide (k = 1)) 4
        [['m', 'v'], ['a'], ['b'], ['d']]).1 ['d'] (by decide) (by decide) (by decide)).2.trans
      (by decide)⟩,
   (do_cp_do_mv_stop_on_interrupt moveEnvExample (fun _ => true) 4
      [['c', 'p'], ['a'], ['b'], ['d']]).2.2.2.2.2.2.2.2.1 ['d'] (by decide) (by decide) rfl,
   (do_cp_do_mv_stop_on_interrupt moveEnvExample (fun k => decide (k = 1)) 4
      [['c', 'p'], ['a'], ['b'], ['d']]).2.2.2.2.2.2.2.2.2.1
      [.isDirectory ['d'], .poll false, .copyFile ['a'] ['d', '/', 'a'] false] (by decide)⟩

end Sash
